import Mathlib

/-!
Verification of the Automated-API-Testing repository.

This file gives a shallow embedding, in Lean 4, of the core data
transformations of the repository:

* `src/api_test_gen/ir/models.py` — the canonical schema model
  (`SchemaRef`, `to_dict`, `_deterministic_hash`);
* `src/api_test_gen/diff/engine.py` — the change-detection engine
  (`compute_diff`, `_has_changed`);
* `src/api_test_gen/generator/payloads.py` — the sample-payload generator;
* `src/api_test_gen/negative/mutation_engine.py` — the mutation engine;
* `src/api_test_gen/parser/openapi.py` — schema resolution
  (`_convert_schema`);
* `src/api_test_gen/generator/engine.py` — the file materializer
  (`_assemble_test_file`) and the negative-test file generator;
* `src/api_test_gen/state/repo_manager.py` — the repository scan.

Python dictionaries are modelled as insertion-ordered association lists,
Python values occurring in payloads and schema dictionaries as the
inductive type `Json`, and file contents as lists of lines (each line a
`List Char`, without its terminating newline).  Python's `hashlib.sha256`
is a fixed function of its input bytes, so claims about equality or
difference of digests are settled on the exact byte string that the
source feeds to `sha256` (the canonical serialization produced by
`json.dumps(_sort_any(data), sort_keys=True)`); this embedding calls that
byte string the hash.
-/

/-- A JSON-like Python value: `None`, `bool`, numbers, `str`, `list`,
`dict` (insertion-ordered association list).  Numbers are modelled as
integers; every numeric literal the verified code paths manipulate is an
integer. -/
inductive Json where
  | null : Json
  | bool : Bool → Json
  | num : Int → Json
  | str : String → Json
  | arr : List Json → Json
  | obj : List (String × Json) → Json
deriving Repr

mutual
def Json.beq : Json → Json → Bool
  | .null, .null => true
  | .bool a, .bool b => a == b
  | .num a, .num b => a == b
  | .str a, .str b => a == b
  | .arr a, .arr b => beqJsonList a b
  | .obj a, .obj b => beqJsonObj a b
  | _, _ => false

def beqJsonList : List Json → List Json → Bool
  | [], [] => true
  | a :: as, b :: bs => Json.beq a b && beqJsonList as bs
  | _, _ => false

def beqJsonObj : List (String × Json) → List (String × Json) → Bool
  | [], [] => true
  | (k, v) :: as, (k2, v2) :: bs => k == k2 && Json.beq v v2 && beqJsonObj as bs
  | _, _ => false
end

mutual
theorem Json.beq_iff : ∀ a b : Json, Json.beq a b = true ↔ a = b
  | .null, .null => by simp [Json.beq]
  | .bool a, .bool b => by simp [Json.beq]
  | .num a, .num b => by simp [Json.beq]
  | .str a, .str b => by simp [Json.beq]
  | .arr a, .arr b => by simp [Json.beq, beqJsonList_iff a b]
  | .obj a, .obj b => by simp [Json.beq, beqJsonObj_iff a b]
  | .null, .bool _ | .null, .num _ | .null, .str _ | .null, .arr _ | .null, .obj _
  | .bool _, .null | .bool _, .num _ | .bool _, .str _ | .bool _, .arr _ | .bool _, .obj _
  | .num _, .null | .num _, .bool _ | .num _, .str _ | .num _, .arr _ | .num _, .obj _
  | .str _, .null | .str _, .bool _ | .str _, .num _ | .str _, .arr _ | .str _, .obj _
  | .arr _, .null | .arr _, .bool _ | .arr _, .num _ | .arr _, .str _ | .arr _, .obj _
  | .obj _, .null | .obj _, .bool _ | .obj _, .num _ | .obj _, .str _ | .obj _, .arr _ => by
      simp [Json.beq]

theorem beqJsonList_iff : ∀ a b : List Json, beqJsonList a b = true ↔ a = b
  | [], [] => by simp [beqJsonList]
  | a :: as, b :: bs => by
      simp [beqJsonList, Json.beq_iff a b, beqJsonList_iff as bs]
  | [], _ :: _ => by simp [beqJsonList]
  | _ :: _, [] => by simp [beqJsonList]

theorem beqJsonObj_iff : ∀ a b : List (String × Json), beqJsonObj a b = true ↔ a = b
  | [], [] => by simp [beqJsonObj]
  | (k, v) :: as, (k2, v2) :: bs => by
      simp [beqJsonObj, Json.beq_iff v v2, beqJsonObj_iff as bs]
  | [], _ :: _ => by simp [beqJsonObj]
  | _ :: _, [] => by simp [beqJsonObj]
end

instance : DecidableEq Json := fun a b =>
  decidable_of_iff (Json.beq a b = true) (Json.beq_iff a b)

/-- Python's string comparison on two code-point sequences (used by
`sorted` on dictionary keys): lexicographic by code point.  Stated on
`List Char` so that it evaluates by `decide`. -/
def charsLe : List Char → List Char → Bool
  | [], _ => true
  | _ :: _, [] => false
  | c :: cs, d :: ds => if c = d then charsLe cs ds else decide (c.toNat < d.toNat)

/-- Python `s1 <= s2` on strings. -/
def strLe (a b : String) : Bool := charsLe a.data b.data

theorem char_eq_of_toNat_eq {a b : Char} (h : a.toNat = b.toNat) : a = b := by
  rw [← Char.ofNat_toNat a, h, Char.ofNat_toNat]

theorem charsLe_total : ∀ a b : List Char, charsLe a b = true ∨ charsLe b a = true
  | [], _ => by left; rfl
  | _ :: _, [] => by right; rfl
  | c :: cs, d :: ds => by
      by_cases h : c = d
      · subst h
        rcases charsLe_total cs ds with h1 | h1
        · left; simpa [charsLe] using h1
        · right; simpa [charsLe] using h1
      · rcases Nat.lt_or_ge c.toNat d.toNat with h1 | h1
        · left; simp [charsLe, h, h1]
        · right
          have hne : d ≠ c := fun hh => h hh.symm
          have : d.toNat < c.toNat := by
            rcases Nat.lt_or_ge d.toNat c.toNat with h2 | h2
            · exact h2
            · exact absurd (char_eq_of_toNat_eq (by omega)) hne
          simp [charsLe, hne, this]

theorem charsLe_antisymm : ∀ a b : List Char,
    charsLe a b = true → charsLe b a = true → a = b
  | [], [], _, _ => rfl
  | [], _ :: _, _, h2 => by simp [charsLe] at h2
  | _ :: _, [], h1, _ => by simp [charsLe] at h1
  | c :: cs, d :: ds, h1, h2 => by
      by_cases h : c = d
      · subst h
        simp only [charsLe, if_pos rfl] at h1 h2
        exact congrArg (c :: ·) (charsLe_antisymm cs ds h1 h2)
      · have hne : d ≠ c := fun hh => h hh.symm
        simp [charsLe, h] at h1
        simp [charsLe, hne] at h2
        omega

theorem charsLe_trans : ∀ a b c : List Char,
    charsLe a b = true → charsLe b c = true → charsLe a c = true
  | [], _, _, _, _ => rfl
  | _ :: _, [], _, h1, _ => by simp [charsLe] at h1
  | _ :: _, _ :: _, [], _, h2 => by simp [charsLe] at h2
  | a :: as, b :: bs, c :: cs, h1, h2 => by
      by_cases hab : a = b
      · subst hab
        by_cases hbc : a = c
        · subst hbc
          simp only [charsLe, if_pos rfl] at h1 h2 ⊢
          exact charsLe_trans as bs cs h1 h2
        · simp only [charsLe, if_pos rfl] at h1
          simpa [charsLe, hbc] using h2
      · by_cases hbc : b = c
        · subst hbc
          simpa [charsLe, hab] using h1
        · simp only [charsLe, if_neg hab, decide_eq_true_eq] at h1
          simp only [charsLe, if_neg hbc, decide_eq_true_eq] at h2
          have hac : a ≠ c := by
            intro h
            subst h
            omega
          simp only [charsLe, if_neg hac, decide_eq_true_eq]
          omega

theorem strLe_total (a b : String) : strLe a b = true ∨ strLe b a = true :=
  charsLe_total a.data b.data

theorem strLe_antisymm {a b : String} (h1 : strLe a b = true) (h2 : strLe b a = true) :
    a = b := by
  cases a; cases b
  exact congrArg String.mk (charsLe_antisymm _ _ h1 h2)

theorem strLe_trans {a b c : String} (h1 : strLe a b = true) (h2 : strLe b c = true) :
    strLe a c = true :=
  charsLe_trans a.data b.data c.data h1 h2

/-- One insertion step of Python's `sorted` on key-value pairs, comparing
by key only.  Python's `sorted(val.items())` compares `(key, value)`
tuples lexicographically, but dictionary keys are pairwise distinct, so
the value component is never consulted; the sort is therefore a plain sort
by key. -/
def insertPair (a : String × Json) : List (String × Json) → List (String × Json)
  | [] => [a]
  | b :: bs => if strLe a.1 b.1 then a :: b :: bs else b :: insertPair a bs

/-- Python's `sorted(d.items())` for a dictionary `d`, modelled as an
insertion sort by key. -/
def sortPairs : List (String × Json) → List (String × Json)
  | [] => []
  | a :: as => insertPair a (sortPairs as)

/-- Python's `sorted` on a list of strings (used for `required` in
`SchemaRef.to_dict`). -/
def insertStr (a : String) : List String → List String
  | [] => [a]
  | b :: bs => if strLe a b then a :: b :: bs else b :: insertStr a bs

def sortStrings : List String → List String
  | [] => []
  | a :: as => insertStr a (sortStrings as)

theorem insertPair_perm (a : String × Json) :
    ∀ l : List (String × Json), (insertPair a l).Perm (a :: l)
  | [] => List.Perm.refl _
  | b :: bs => by
      by_cases h : strLe a.1 b.1 = true
      · simp [insertPair, h]
      · simp only [insertPair, h, if_false, Bool.false_eq_true]
        exact (List.Perm.cons b (insertPair_perm a bs)).trans (List.Perm.swap a b bs)

theorem sortPairs_perm : ∀ l : List (String × Json), (sortPairs l).Perm l
  | [] => List.Perm.refl _
  | a :: as =>
      (insertPair_perm a (sortPairs as)).trans (List.Perm.cons a (sortPairs_perm as))

/-- The ordering on pairs that `sortPairs` establishes. -/
def pairLe (a b : String × Json) : Prop := strLe a.1 b.1 = true

instance : DecidablePred fun p : (String × Json) × (String × Json) => pairLe p.1 p.2 :=
  fun _ => by unfold pairLe; infer_instance

theorem insertPair_pairwise (a : String × Json) :
    ∀ l : List (String × Json), l.Pairwise pairLe →
      (insertPair a l).Pairwise pairLe
  | [], _ => by simp [insertPair, List.Pairwise]
  | b :: bs, hp => by
      rcases List.pairwise_cons.mp hp with ⟨hb, hbs⟩
      by_cases h : strLe a.1 b.1 = true
      · simp only [insertPair, h, if_true]
        refine List.pairwise_cons.mpr ⟨?_, hp⟩
        intro x hx
        rcases hx with _ | hx
        · exact h
        · exact strLe_trans h (hb x (by assumption))
      · simp only [insertPair, h, if_false, Bool.false_eq_true]
        refine List.pairwise_cons.mpr ⟨?_, insertPair_pairwise a bs hbs⟩
        intro x hx
        have hmem := (insertPair_perm a bs).mem_iff.mp hx
        rcases List.mem_cons.mp hmem with hxa | hxb
        · subst hxa
          rcases strLe_total b.1 x.1 with h1 | h1
          · exact h1
          · exact absurd h1 (by simpa using h)
        · exact hb x hxb

theorem sortPairs_pairwise : ∀ l : List (String × Json),
    (sortPairs l).Pairwise pairLe
  | [] => List.Pairwise.nil
  | a :: as => insertPair_pairwise a (sortPairs as) (sortPairs_pairwise as)

/-- Two key-sorted association lists that are permutations of one another
and have pairwise-distinct keys are equal. -/
theorem eq_of_perm_of_pairwise_of_nodup :
    ∀ l1 l2 : List (String × Json), l1.Perm l2 →
      (l1.map Prod.fst).Nodup → l1.Pairwise pairLe → l2.Pairwise pairLe → l1 = l2
  | [], l2, hp, _, _, _ => (hp.nil_eq).symm ▸ rfl
  | a :: t1, l2, hp, hnd, hs1, hs2 => by
      match l2 with
      | [] => exact absurd hp.symm (by simp)
      | b :: t2 =>
        have hab : a = b := by
          have hbmem : b ∈ a :: t1 := hp.mem_iff.mpr (List.mem_cons_self b t2)
          rcases List.mem_cons.mp hbmem with hba | hbt1
          · exact hba.symm
          · have hamem : a ∈ b :: t2 := hp.mem_iff.mp (List.mem_cons_self a t1)
            rcases List.mem_cons.mp hamem with hab' | hat2
            · exact hab'
            · -- a in t2, b in t1: keys must coincide, contradicting nodup
              have h1 : strLe a.1 b.1 = true :=
                (List.pairwise_cons.mp hs1).1 b hbt1
              have h2 : strLe b.1 a.1 = true :=
                (List.pairwise_cons.mp hs2).1 a hat2
              have hkey : a.1 = b.1 := strLe_antisymm h1 h2
              have hmem' : a.1 ∈ t1.map Prod.fst :=
                hkey ▸ List.mem_map_of_mem Prod.fst hbt1
              exact absurd hmem' (List.nodup_cons.mp hnd).1
        subst hab
        have hperm' : t1.Perm t2 := hp.cons_inv
        have := eq_of_perm_of_pairwise_of_nodup t1 t2 hperm'
          (List.nodup_cons.mp hnd).2 (List.pairwise_cons.mp hs1).2 (List.pairwise_cons.mp hs2).2
        rw [this]

/-- `sortPairs` depends only on the multiset of entries when keys are
pairwise distinct. -/
theorem sortPairs_congr {l1 l2 : List (String × Json)} (hp : l1.Perm l2)
    (hnd : (l1.map Prod.fst).Nodup) : sortPairs l1 = sortPairs l2 :=
  eq_of_perm_of_pairwise_of_nodup _ _
    ((sortPairs_perm l1).trans (hp.trans (sortPairs_perm l2).symm))
    (((sortPairs_perm l1).map Prod.fst).nodup_iff.mpr hnd)
    (sortPairs_pairwise l1) (sortPairs_pairwise l2)

mutual
/-- `_sort_any` from `ir/models.py`: recursively sorts dictionary keys
(`{k: _sort_any(v) for k, v in sorted(val.items())}`), leaving list order
untouched.  The source sorts a dictionary's items before recursing into
the values; since the comparator reads only keys and the recursion leaves
keys unchanged, sorting commutes with the recursion, and this definition
recurses first (`sortAnyPairs`) and sorts second — the same function,
but structurally recursive. -/
def sortAny : Json → Json
  | .null => .null
  | .bool b => .bool b
  | .num n => .num n
  | .str s => .str s
  | .arr xs => .arr (sortAnyList xs)
  | .obj kvs => .obj (sortPairs (sortAnyPairs kvs))

def sortAnyList : List Json → List Json
  | [] => []
  | x :: xs => sortAny x :: sortAnyList xs

def sortAnyPairs : List (String × Json) → List (String × Json)
  | [] => []
  | (k, v) :: rest => (k, sortAny v) :: sortAnyPairs rest
end

/-- The commutation fact deferred from `sortAny`'s definition: sorting a
pair list by key and then recursing into the values is the same as
recursing first and sorting second. -/
theorem sortAnyPairs_sortPairs_comm (kvs : List (String × Json)) :
    sortAnyPairs (sortPairs kvs) = sortPairs (sortAnyPairs kvs) := by
  induction kvs with
  | nil => rfl
  | cons a as ih =>
      obtain ⟨k, v⟩ := a
      simp only [sortPairs, sortAnyPairs, ← ih]
      generalize sortPairs as = l
      induction l with
      | nil => rfl
      | cons b bs ihb =>
          obtain ⟨k2, v2⟩ := b
          by_cases h : strLe k k2 = true
          · simp [insertPair, sortAnyPairs, h]
          · simp [insertPair, sortAnyPairs, h, ihb]

mutual
/-- The canonical byte string `json.dumps(·, sort_keys=False)` produces
for an already-key-sorted value (default separators `", "` and `": "`).
String escaping is omitted: no claim below depends on the serialization
of a string containing a quote, backslash or non-ASCII character. -/
def Json.dump : Json → String
  | .null => "null"
  | .bool true => "true"
  | .bool false => "false"
  | .num n => toString n
  | .str s => "\x22" ++ s ++ "\x22"
  | .arr xs => "[" ++ dumpList xs ++ "]"
  | .obj kvs => "\x7b" ++ dumpObj kvs ++ "\x7d"

def dumpList : List Json → String
  | [] => ""
  | [x] => Json.dump x
  | x :: y :: rest => Json.dump x ++ ", " ++ dumpList (y :: rest)

def dumpObj : List (String × Json) → String
  | [] => ""
  | [(k, v)] => "\x22" ++ k ++ "\x22: " ++ Json.dump v
  | (k, v) :: y :: rest => "\x22" ++ k ++ "\x22: " ++ Json.dump v ++ ", " ++ dumpObj (y :: rest)
end

/-- `_deterministic_hash` from `ir/models.py`, modelled up to the final
`hashlib.sha256(...).hexdigest()` application: the inner `sortAny` is
`_sort_any`, and `Json.dump ∘ sortAny` is `json.dumps(·, sort_keys=True)`
(sorting every dictionary during serialization).  `sha256` is a fixed
function of this byte string, so two calls agree on their digests exactly
when they agree on this string (collisions of sha256 aside). -/
def deterministic_hash (data : Json) : String :=
  Json.dump (sortAny (sortAny data))

/-- `SchemaRef` from `ir/models.py`: a reference to a named schema or an
inline schema definition.  Field order and names follow the dataclass;
`Optional[Dict[...]]` fields are insertion-ordered association lists. -/
inductive SchemaRef where
  | mk
    (ref_name : Option String)
    (type : Option String)
    (properties : Option (List (String × SchemaRef)))
    (items : Option SchemaRef)
    (required : Option (List String))
    (nullable : Bool)
    (enum : Option (List Json))
    (all_of : Option (List SchemaRef))
    (one_of : Option (List SchemaRef))
    (any_of : Option (List SchemaRef))
    (min_length : Option Int)
    (max_length : Option Int)
    (minimum : Option Int)
    (maximum : Option Int)
    (pattern : Option String)
    (read_only : Bool)
    (write_only : Bool)
    (extra : Option (List (String × Json)))

def SchemaRef.ref_name : SchemaRef → Option String
  | .mk rn _ _ _ _ _ _ _ _ _ _ _ _ _ _ _ _ _ => rn

def SchemaRef.type : SchemaRef → Option String
  | .mk _ ty _ _ _ _ _ _ _ _ _ _ _ _ _ _ _ _ => ty

def SchemaRef.properties : SchemaRef → Option (List (String × SchemaRef))
  | .mk _ _ pr _ _ _ _ _ _ _ _ _ _ _ _ _ _ _ => pr

def SchemaRef.items : SchemaRef → Option SchemaRef
  | .mk _ _ _ it _ _ _ _ _ _ _ _ _ _ _ _ _ _ => it

def SchemaRef.required : SchemaRef → Option (List String)
  | .mk _ _ _ _ rq _ _ _ _ _ _ _ _ _ _ _ _ _ => rq

def SchemaRef.nullable : SchemaRef → Bool
  | .mk _ _ _ _ _ nu _ _ _ _ _ _ _ _ _ _ _ _ => nu

def SchemaRef.enum : SchemaRef → Option (List Json)
  | .mk _ _ _ _ _ _ en _ _ _ _ _ _ _ _ _ _ _ => en

def SchemaRef.all_of : SchemaRef → Option (List SchemaRef)
  | .mk _ _ _ _ _ _ _ ao _ _ _ _ _ _ _ _ _ _ => ao

def SchemaRef.one_of : SchemaRef → Option (List SchemaRef)
  | .mk _ _ _ _ _ _ _ _ oo _ _ _ _ _ _ _ _ _ => oo

def SchemaRef.any_of : SchemaRef → Option (List SchemaRef)
  | .mk _ _ _ _ _ _ _ _ _ ano _ _ _ _ _ _ _ _ => ano

def SchemaRef.min_length : SchemaRef → Option Int
  | .mk _ _ _ _ _ _ _ _ _ _ mnl _ _ _ _ _ _ _ => mnl

def SchemaRef.max_length : SchemaRef → Option Int
  | .mk _ _ _ _ _ _ _ _ _ _ _ mxl _ _ _ _ _ _ => mxl

def SchemaRef.minimum : SchemaRef → Option Int
  | .mk _ _ _ _ _ _ _ _ _ _ _ _ mn _ _ _ _ _ => mn

def SchemaRef.maximum : SchemaRef → Option Int
  | .mk _ _ _ _ _ _ _ _ _ _ _ _ _ mx _ _ _ _ => mx

def SchemaRef.pattern : SchemaRef → Option String
  | .mk _ _ _ _ _ _ _ _ _ _ _ _ _ _ pa _ _ _ => pa

def SchemaRef.read_only : SchemaRef → Bool
  | .mk _ _ _ _ _ _ _ _ _ _ _ _ _ _ _ ro _ _ => ro

def SchemaRef.write_only : SchemaRef → Bool
  | .mk _ _ _ _ _ _ _ _ _ _ _ _ _ _ _ _ wo _ => wo

def SchemaRef.extra : SchemaRef → Option (List (String × Json))
  | .mk _ _ _ _ _ _ _ _ _ _ _ _ _ _ _ _ _ ex => ex

/-- A `SchemaRef` with every optional field absent and every flag false
(the dataclass's default construction `SchemaRef()`). -/
def SchemaRef.empty : SchemaRef :=
  .mk none none none none none false none none none none none none none none none false false none

/-- The `d[key] = value` line of `to_dict` guarded by `if field:` for a
string field (Python truthiness: `None` and `""` are falsy). -/
def entStr (key : String) : Option String → List (String × Json)
  | some s => if s = "" then [] else [(key, Json.str s)]
  | none => []

/-- The `d['pattern'] = self.pattern` line of `to_dict`, guarded by
`if self.pattern is not None:`. -/
def entStrOpt (key : String) : Option String → List (String × Json)
  | some s => [(key, Json.str s)]
  | none => []

/-- A `d[key] = value` line of `to_dict` guarded by `if field is not
None:` for a numeric field. -/
def entNum (key : String) : Option Int → List (String × Json)
  | some n => [(key, Json.num n)]
  | none => []

/-- A `d[key] = True` line of `to_dict` guarded by `if field:` for a
boolean field. -/
def entFlag (key : String) : Bool → List (String × Json)
  | true => [(key, Json.bool true)]
  | false => []

/-- The `d['enum'] = list(self.enum)` line of `to_dict`, guarded by
`if self.enum:` (an empty tuple is falsy). -/
def entEnum : Option (List Json) → List (String × Json)
  | some l => if l.isEmpty then [] else [("enum", Json.arr l)]
  | none => []

/-- The `d['required'] = sorted(list(self.required))` line of `to_dict`,
guarded by `if self.required:`. -/
def entReq : Option (List String) → List (String × Json)
  | some l => if l.isEmpty then [] else
      [("required", Json.arr ((sortStrings l).map Json.str))]
  | none => []

mutual
/-- The `d['properties'] = {...}` line of `to_dict`, guarded by
`if self.properties:` (an empty dictionary is falsy). -/
def toDictPropsEntry : Option (List (String × SchemaRef)) → List (String × Json)
  | some l => if l.isEmpty then [] else [("properties", Json.obj (toDictProps l))]
  | none => []

/-- The `d['items'] = self.items.to_dict()` line of `to_dict`, guarded by
`if self.items:` (a dataclass instance is always truthy). -/
def toDictItemsEntry : Option SchemaRef → List (String × Json)
  | some s => [("items", s.to_dict)]
  | none => []

/-- A `d[key] = [s.to_dict() for s in field]` line of `to_dict` for
`allOf` / `oneOf` / `anyOf`, guarded by `if field:`. -/
def toDictCompEntry (key : String) : Option (List SchemaRef) → List (String × Json)
  | some l => if l.isEmpty then [] else [(key, Json.arr (toDictList l))]
  | none => []

/-- `SchemaRef.to_dict` from `ir/models.py`: the dictionary the hash is
computed from.  Entries appear in the insertion order of the source; each
`ent.../toDict...Entry` helper is one guarded `d[key] = ...` line of the
source, with Python truthiness as documented on the helper.  The `extra`
field does not enter the dictionary. -/
def SchemaRef.to_dict : SchemaRef → Json
  | .mk rn ty props itms req nu en ao oo ano mnl mxl mn mx pa ro wo _ex =>
    Json.obj (entStr "$ref" rn ++ entStr "type" ty ++ toDictPropsEntry props
      ++ toDictItemsEntry itms ++ entReq req ++ entFlag "nullable" nu ++ entEnum en
      ++ toDictCompEntry "allOf" ao ++ toDictCompEntry "oneOf" oo
      ++ toDictCompEntry "anyOf" ano ++ entNum "minLength" mnl ++ entNum "maxLength" mxl
      ++ entNum "minimum" mn ++ entNum "maximum" mx ++ entStrOpt "pattern" pa
      ++ entFlag "readOnly" ro ++ entFlag "writeOnly" wo)

def toDictList : List SchemaRef → List Json
  | [] => []
  | s :: rest => s.to_dict :: toDictList rest

def toDictProps : List (String × SchemaRef) → List (String × Json)
  | [] => []
  | (k, v) :: rest => (k, v.to_dict) :: toDictProps rest
end

/-- `SchemaRef.hash` from `ir/models.py`: the deterministic fingerprint of
the schema definition. -/
def SchemaRef.hash (s : SchemaRef) : String := deterministic_hash s.to_dict

theorem sortAnyPairs_eq_map : ∀ l : List (String × Json),
    sortAnyPairs l = l.map (fun p => (p.1, sortAny p.2))
  | [] => by simp [sortAnyPairs]
  | (k, v) :: rest => by simp [sortAnyPairs, sortAnyPairs_eq_map rest]

theorem toDictProps_eq_map : ∀ l : List (String × SchemaRef),
    toDictProps l = l.map (fun p => (p.1, p.2.to_dict))
  | [] => rfl
  | (k, v) :: rest => by simp [toDictProps, toDictProps_eq_map rest]

theorem toDictList_eq_map : ∀ l : List SchemaRef,
    toDictList l = l.map SchemaRef.to_dict
  | [] => rfl
  | s :: rest => by simp [toDictList, toDictList_eq_map rest]

/-- Entries with equal keys and equal `sortAny`-images; the canonical
serialization cannot separate two dictionaries whose entry lists are
related pointwise by this relation. -/
def hashRel (p q : String × Json) : Prop :=
  p.1 = q.1 ∧ sortAny p.2 = sortAny q.2

theorem forall₂_hashRel_refl (l : List (String × Json)) : List.Forall₂ hashRel l l :=
  List.forall₂_same.mpr (fun _ _ => ⟨rfl, rfl⟩)

theorem forall₂_hashRel_append {l1 m1 l2 m2 : List (String × Json)}
    (h1 : List.Forall₂ hashRel l1 m1) (h2 : List.Forall₂ hashRel l2 m2) :
    List.Forall₂ hashRel (l1 ++ l2) (m1 ++ m2) := by
  induction h1 with
  | nil => exact h2
  | cons hab htail ih => exact .cons hab ih

theorem sortAnyPairs_eq_of_forall₂ {l m : List (String × Json)}
    (h : List.Forall₂ hashRel l m) : sortAnyPairs l = sortAnyPairs m := by
  induction h with
  | nil => rfl
  | cons hcd htail ih =>
      rename_i c d l' m'
      obtain ⟨k, v⟩ := c
      obtain ⟨k2, v2⟩ := d
      have hk : k = k2 := hcd.1
      have hv : sortAny v = sortAny v2 := hcd.2
      simp only [sortAnyPairs]
      rw [ih, hk, hv]

theorem sortAny_obj_eq_of_forall₂ {l m : List (String × Json)}
    (h : List.Forall₂ hashRel l m) : sortAny (Json.obj l) = sortAny (Json.obj m) := by
  simp only [sortAny]
  exact congrArg Json.obj (congrArg sortPairs (sortAnyPairs_eq_of_forall₂ h))

theorem sortAny_obj_congr_perm {l m : List (String × Json)} (hp : l.Perm m)
    (hnd : (l.map Prod.fst).Nodup) : sortAny (Json.obj l) = sortAny (Json.obj m) := by
  simp only [sortAny]
  have hp2 : (sortAnyPairs l).Perm (sortAnyPairs m) := by
    rw [sortAnyPairs_eq_map, sortAnyPairs_eq_map]
    exact hp.map _
  have hnd2 : ((sortAnyPairs l).map Prod.fst).Nodup := by
    rw [sortAnyPairs_eq_map]
    simpa [List.map_map, Function.comp_def] using hnd
  rw [sortPairs_congr hp2 hnd2]

/-- C1: for every pair of object schema nodes that carry the same
properties (as a multiset of name/schema entries with pairwise-distinct
names), required set, constraints and composition members but whose
object properties were declared (inserted) in a different order, the
fingerprint (`SchemaRef.hash`, i.e. `_deterministic_hash` of `to_dict`)
is identical; and sequence order remains significant for the digest:
swapping two enum members, or two `oneOf` alternatives, changes the
fingerprint.  Digest claims are settled on the canonical byte string fed
to `sha256` (see `deterministic_hash`). -/
theorem fingerprint_property_order_independence
    (rn ty : Option String) (itms : Option SchemaRef) (req : Option (List String))
    (nu : Bool) (en : Option (List Json)) (ao oo ano : Option (List SchemaRef))
    (mnl mxl mn mx : Option Int) (pa : Option String) (ro wo : Bool)
    (ex1 ex2 : Option (List (String × Json)))
    (props1 props2 : List (String × SchemaRef))
    (hperm : props1.Perm props2) (hnd : (props1.map Prod.fst).Nodup) :
    (SchemaRef.mk rn ty (some props1) itms req nu en ao oo ano mnl mxl mn mx pa ro wo ex1).hash
      = (SchemaRef.mk rn ty (some props2) itms req nu en ao oo ano mnl mxl mn mx pa ro wo ex2).hash
    ∧ (SchemaRef.mk none (some "string") none none none false
          (some [Json.str "a", Json.str "b"]) none none none none none none none none
          false false none).hash
        ≠ (SchemaRef.mk none (some "string") none none none false
          (some [Json.str "b", Json.str "a"]) none none none none none none none none
          false false none).hash
    ∧ (SchemaRef.mk none none none none none false none none
          (some [SchemaRef.empty, .mk none (some "integer") none none none false none
            none none none none none none none none false false none]) none
          none none none none none false false none).hash
        ≠ (SchemaRef.mk none none none none none false none none
          (some [.mk none (some "integer") none none none false none
            none none none none none none none none false false none, SchemaRef.empty]) none
          none none none none none false false none).hash := by
  refine ⟨?_, by decide, by decide⟩
  suffices hs :
      sortAny (SchemaRef.mk rn ty (some props1) itms req nu en ao oo ano mnl mxl mn mx pa ro wo
        ex1).to_dict
      = sortAny (SchemaRef.mk rn ty (some props2) itms req nu en ao oo ano mnl mxl mn mx pa ro wo
        ex2).to_dict by
    unfold SchemaRef.hash deterministic_hash
    rw [hs]
  by_cases hemp : props1.isEmpty
  · have h1 : props1 = [] := by simpa using hemp
    subst h1
    have h2 : props2 = [] := hperm.symm.eq_nil
    subst h2
    have hd :
        (SchemaRef.mk rn ty (some ([] : List (String × SchemaRef))) itms req nu en ao oo ano
          mnl mxl mn mx pa ro wo ex1).to_dict
        = (SchemaRef.mk rn ty (some ([] : List (String × SchemaRef))) itms req nu en ao oo ano
          mnl mxl mn mx pa ro wo ex2).to_dict := by
      rw [SchemaRef.to_dict, SchemaRef.to_dict]
    rw [hd]
  · have hemp2 : props2.isEmpty = false := by
      cases hh : props2.isEmpty with
      | false => rfl
      | true =>
          exfalso
          have h2 : props2 = [] := by simpa using hh
          subst h2
          have h1 : props1 = [] := hperm.eq_nil
          exact hemp (by simp [h1])
    have e1 : props1.isEmpty = false := by
      cases hh : props1.isEmpty with
      | false => rfl
      | true => exact absurd hh hemp
    have hL : (toDictProps props1).Perm (toDictProps props2) := by
      rw [toDictProps_eq_map, toDictProps_eq_map]
      exact hperm.map _
    have hndL : ((toDictProps props1).map Prod.fst).Nodup := by
      rw [toDictProps_eq_map]
      simpa [List.map_map, Function.comp_def] using hnd
    have hobj := sortAny_obj_congr_perm hL hndL
    rw [SchemaRef.to_dict, SchemaRef.to_dict]
    simp only [toDictPropsEntry, e1, hemp2, Bool.false_eq_true, if_false]
    apply sortAny_obj_eq_of_forall₂
    repeat' apply forall₂_hashRel_append
    all_goals
      first
        | exact forall₂_hashRel_refl _
        | exact List.Forall₂.cons ⟨rfl, hobj⟩ List.Forall₂.nil

/-- Witness for `fingerprint_property_order_independence`: a concrete
two-property object schema with the two declaration orders. -/
theorem fingerprint_property_order_independence_witness :
    ([("a", SchemaRef.empty), ("b", SchemaRef.empty)]).Perm
      [("b", SchemaRef.empty), ("a", SchemaRef.empty)]
    ∧ (([("a", SchemaRef.empty), ("b", SchemaRef.empty)]).map
        (Prod.fst (α := String) (β := SchemaRef))).Nodup
    ∧ ((SchemaRef.mk none (some "object")
          (some [("a", SchemaRef.empty), ("b", SchemaRef.empty)]) none none false none
          none none none none none none none none false false none).hash
        = (SchemaRef.mk none (some "object")
          (some [("b", SchemaRef.empty), ("a", SchemaRef.empty)]) none none false none
          none none none none none none none none false false none).hash) :=
  ⟨List.Perm.swap _ _ _, by decide,
    (fingerprint_property_order_independence none (some "object") none none false none
      none none none none none none none none false false none none
      [("a", SchemaRef.empty), ("b", SchemaRef.empty)]
      [("b", SchemaRef.empty), ("a", SchemaRef.empty)]
      (List.Perm.swap _ _ _) (by decide)).1⟩

/-- `TestFileMetadata` from `state/repo_manager.py`: the generation record
reconstructed from one previously generated test file. -/
structure TestFileMetadata where
  relative_path : String
  endpoint_id : String
  request_schema_hash : Option String := none
  response_schema_hashes : Option (List (String × String)) := none
deriving DecidableEq, Repr

/-- Python `str.upper()` on one character (ASCII case mapping; the
method names this is applied to are ASCII). -/
def charUpper (c : Char) : Char :=
  if 97 ≤ c.toNat ∧ c.toNat ≤ 122 then Char.ofNat (c.toNat - 32) else c

/-- Python `str.upper()`. -/
def pyUpper (s : String) : String := String.mk (s.data.map charUpper)

/-- `Endpoint` from `ir/models.py`.  `parameters` entries are raw
parameter dictionaries; `security` is a tuple of requirement objects
(scheme name to scope tuple); `responses` maps a status-code string to a
schema. -/
structure Endpoint where
  method : String
  path : String
  summary : Option String := none
  description : Option String := none
  parameters : List (List (String × Json)) := []
  request_body : Option SchemaRef := none
  request_content_type : Option String := none
  security : Option (List (List (String × List String))) := none
  responses : List (String × SchemaRef) := []

/-- `Endpoint.id` from `ir/models.py`: `f"{self.method.upper()} {self.path}"`. -/
def Endpoint.id (e : Endpoint) : String := pyUpper e.method ++ " " ++ e.path

/-- `APISpec` from `ir/models.py`. -/
structure APISpec where
  title : String
  version : String
  endpoints : List Endpoint
  components : List (String × SchemaRef) := []
  security_schemes : List (String × Json) := []
  servers : List Json := []

/-- `DiffResult` from `diff/engine.py`. -/
structure DiffResult where
  create : List Endpoint := []
  update : List String := []
  skip : List String := []
  delete : List TestFileMetadata := []

/-- One assignment `d[k] = v` on a Python dictionary modelled as an
insertion-ordered association list: an existing key keeps its position
and receives the new value, a new key is appended. -/
def dictUpsert (l : List (String × α)) (k : String) (v : α) : List (String × α) :=
  if l.any (fun p => p.1 == k) then l.map (fun p => if p.1 == k then (k, v) else p)
  else l ++ [(k, v)]

/-- A Python dictionary built from a sequence of key-value pairs (e.g. a
dict comprehension): later pairs overwrite earlier ones in place. -/
def buildDict (items : List (String × α)) : List (String × α) :=
  items.foldl (fun acc p => dictUpsert acc p.1 p.2) []

/-- Python `d.get(k)` on the association-list model. -/
def dictGet (l : List (String × α)) (k : String) : Option α :=
  (l.find? (fun p => p.1 == k)).map Prod.snd

/-- Python `set(l1) == set(l2)` on two key lists. -/
def keySetEqB (l1 l2 : List String) : Bool :=
  l1.all (fun k => l2.contains k) && l2.all (fun k => l1.contains k)

/-- `DiffEngine._has_changed` from `diff/engine.py`: true when the
request-schema hash, the response status-code set, or any per-status
response hash differs between the current endpoint and the recorded
metadata. -/
def hasChanged (e : Endpoint) (existing : TestFileMetadata) : Bool :=
  if e.request_body.map SchemaRef.hash ≠ existing.request_schema_hash then true
  else
    let existing_resps := existing.response_schema_hashes.getD []
    if ¬ (keySetEqB (existing_resps.map Prod.fst) (e.responses.map Prod.fst) = true) then true
    else e.responses.any (fun p => ¬ (dictGet existing_resps p.1 = some p.2.hash))

/-- The classification loop of `DiffEngine.compute_diff`: each endpoint
in spec order is appended to `create`, `update` or `skip`. -/
def diffClassify (lookup : List (String × TestFileMetadata)) :
    List Endpoint → List Endpoint × List String × List String
  | [] => ([], [], [])
  | e :: rest =>
    let r := diffClassify lookup rest
    match dictGet lookup e.id with
    | none => (e :: r.1, r.2.1, r.2.2)
    | some m => if hasChanged e m then (r.1, e.id :: r.2.1, r.2.2)
                else (r.1, r.2.1, e.id :: r.2.2)

/-- `DiffEngine.compute_diff` from `diff/engine.py`: builds the lookup
from record identity to record, classifies every endpoint of the
specification, and classifies as delete every record whose identity was
never processed. -/
def compute_diff (spec : APISpec) (existing : List TestFileMetadata) : DiffResult :=
  let existing_map := buildDict (existing.map (fun t => (t.endpoint_id, t)))
  let r := diffClassify existing_map spec.endpoints
  let processed := spec.endpoints.map Endpoint.id
  { create := r.1, update := r.2.1, skip := r.2.2,
    delete := (existing_map.filter (fun p => ¬ processed.contains p.1)).map Prod.snd }

theorem diffClassify_create (lookup : List (String × TestFileMetadata)) :
    ∀ es : List Endpoint,
      (diffClassify lookup es).1 = es.filter (fun e => (dictGet lookup e.id).isNone)
  | [] => rfl
  | e :: rest => by
      simp only [diffClassify, diffClassify_create lookup rest]
      cases h : dictGet lookup e.id with
      | none => simp [List.filter_cons, h]
      | some m =>
          cases hc : hasChanged e m <;> simp [List.filter_cons, h, hc]

theorem diffClassify_update (lookup : List (String × TestFileMetadata)) :
    ∀ es : List Endpoint,
      (diffClassify lookup es).2.1 = (es.filter (fun e =>
        match dictGet lookup e.id with
        | some m => hasChanged e m
        | none => false)).map Endpoint.id
  | [] => rfl
  | e :: rest => by
      simp only [diffClassify, diffClassify_update lookup rest]
      cases h : dictGet lookup e.id with
      | none => simp [List.filter_cons, h]
      | some m =>
          cases hc : hasChanged e m <;> simp [List.filter_cons, h, hc]

theorem diffClassify_skip (lookup : List (String × TestFileMetadata)) :
    ∀ es : List Endpoint,
      (diffClassify lookup es).2.2 = (es.filter (fun e =>
        match dictGet lookup e.id with
        | some m => ¬ hasChanged e m
        | none => false)).map Endpoint.id
  | [] => rfl
  | e :: rest => by
      simp only [diffClassify, diffClassify_skip lookup rest]
      cases h : dictGet lookup e.id with
      | none => simp [List.filter_cons, h]
      | some m =>
          cases hc : hasChanged e m <;> simp [List.filter_cons, h, hc]

/-- The per-endpoint contributions of the classification loop partition
the spec's identity sequence: ids of `create`, then `update`, then `skip`
form a permutation of the spec's operation identities. -/
theorem diffClassify_perm (lookup : List (String × TestFileMetadata)) :
    ∀ es : List Endpoint,
      ((diffClassify lookup es).1.map Endpoint.id ++ ((diffClassify lookup es).2.1
        ++ (diffClassify lookup es).2.2)).Perm (es.map Endpoint.id)
  | [] => List.Perm.refl _
  | e :: rest => by
      have ih := diffClassify_perm lookup rest
      simp only [diffClassify, List.map_cons]
      cases h : dictGet lookup e.id with
      | none => exact ih.cons e.id
      | some m =>
          cases hc : hasChanged e m
          · simp only [hc, if_false, Bool.false_eq_true]
            refine List.Perm.trans ?_ (ih.cons e.id)
            refine List.Perm.trans (List.Perm.append_left _ List.perm_middle) ?_
            exact List.perm_middle
          · simp only [hc, if_true]
            refine List.Perm.trans ?_ (ih.cons e.id)
            exact List.perm_middle

theorem dictUpsert_of_not_mem {α : Type} {l : List (String × α)} {k : String}
    (h : k ∉ l.map Prod.fst) (v : α) : dictUpsert l k v = l ++ [(k, v)] := by
  unfold dictUpsert
  rw [if_neg]
  simp only [List.any_eq_true, beq_iff_eq]
  rintro ⟨p, hp, hpk⟩
  exact h (hpk ▸ List.mem_map_of_mem Prod.fst hp)

theorem foldl_upsert_append {α : Type} :
    ∀ (items : List (String × α)) (acc : List (String × α)),
      (∀ p ∈ items, p.1 ∉ acc.map Prod.fst) → (items.map Prod.fst).Nodup →
      items.foldl (fun acc p => dictUpsert acc p.1 p.2) acc = acc ++ items
  | [], acc, _, _ => by simp
  | (k, v) :: rest, acc, hdisj, hnd => by
      simp only [List.foldl_cons]
      rw [dictUpsert_of_not_mem (hdisj (k, v) (List.mem_cons_self _ _)) v]
      rw [foldl_upsert_append rest (acc ++ [(k, v)]) ?_ ?_]
      · simp
      · intro p hp hmem
        rw [List.map_append] at hmem
        rcases List.mem_append.mp hmem with hpa | hpk
        · exact hdisj p (List.mem_cons_of_mem _ hp) hpa
        · simp only [List.map_cons, List.map_nil, List.mem_singleton] at hpk
          have hk : k ∈ rest.map Prod.fst := hpk ▸ List.mem_map_of_mem Prod.fst hp
          exact (List.nodup_cons.mp hnd).1 hk
      · exact (List.nodup_cons.mp hnd).2

theorem buildDict_nodup {α : Type} (items : List (String × α))
    (h : (items.map Prod.fst).Nodup) : buildDict items = items := by
  unfold buildDict
  simpa using foldl_upsert_append items [] (by simp) h

/-- C2: for every specification whose operation identities are pairwise
distinct and every record sequence with pairwise distinct identities,
`compute_diff` returns a partition: the identities of `create`, `update`
and `skip` together are a permutation of the spec's identities (so each
identity lands in exactly one bucket, exactly once); `delete` is exactly
the subsequence of records whose identity matches no current operation;
every unmatched record appears exactly once in `delete`; and no matched
record appears in `delete`. -/
theorem diff_partition_totality (spec : APISpec) (existing : List TestFileMetadata)
    (hn1 : (spec.endpoints.map Endpoint.id).Nodup)
    (hn2 : (existing.map TestFileMetadata.endpoint_id).Nodup) :
    ((compute_diff spec existing).create.map Endpoint.id
      ++ ((compute_diff spec existing).update ++ (compute_diff spec existing).skip)).Perm
        (spec.endpoints.map Endpoint.id)
    ∧ (∀ e ∈ spec.endpoints,
        ((compute_diff spec existing).create.map Endpoint.id
          ++ ((compute_diff spec existing).update
          ++ (compute_diff spec existing).skip)).count e.id = 1)
    ∧ (compute_diff spec existing).delete
        = existing.filter (fun t => ¬ (spec.endpoints.map Endpoint.id).contains t.endpoint_id)
    ∧ (∀ t ∈ existing, t.endpoint_id ∉ spec.endpoints.map Endpoint.id →
        (compute_diff spec existing).delete.count t = 1)
    ∧ (∀ t ∈ existing, t.endpoint_id ∈ spec.endpoints.map Endpoint.id →
        t ∉ (compute_diff spec existing).delete) := by
  have hperm : ((compute_diff spec existing).create.map Endpoint.id
      ++ ((compute_diff spec existing).update ++ (compute_diff spec existing).skip)).Perm
        (spec.endpoints.map Endpoint.id) := by
    simp only [compute_diff]
    exact diffClassify_perm _ spec.endpoints
  have hkeys : ((existing.map (fun t => (t.endpoint_id, t))).map Prod.fst).Nodup := by
    simpa [List.map_map, Function.comp_def] using hn2
  have hdel : (compute_diff spec existing).delete
      = existing.filter (fun t => ¬ (spec.endpoints.map Endpoint.id).contains t.endpoint_id) := by
    simp only [compute_diff]
    rw [buildDict_nodup _ hkeys]
    rw [List.filter_map, List.map_map]
    simp [Function.comp_def]
  refine ⟨hperm, ?_, hdel, ?_, ?_⟩
  · intro e he
    rw [hperm.count_eq]
    exact List.count_eq_one_of_mem hn1 (List.mem_map_of_mem Endpoint.id he)
  · intro t ht hmem
    have hnd : existing.Nodup := hn2.of_map
    rw [hdel, List.count_filter (by simpa using hmem)]
    exact List.count_eq_one_of_mem hnd ht
  · intro t ht hmem
    rw [hdel]
    intro hcon
    have h2 := (List.mem_filter.mp hcon).2
    simp only [decide_eq_true_eq] at h2
    exact h2 (List.elem_iff.mpr hmem)

theorem keySetEqB_iff (l1 l2 : List String) :
    keySetEqB l1 l2 = true ↔ ∀ k, k ∈ l1 ↔ k ∈ l2 := by
  unfold keySetEqB
  rw [Bool.and_eq_true, List.all_eq_true, List.all_eq_true]
  constructor
  · rintro ⟨ha, hb⟩ k
    exact ⟨fun hk => List.elem_iff.mp (ha k hk), fun hk => List.elem_iff.mp (hb k hk)⟩
  · intro h
    exact ⟨fun k hk => List.elem_iff.mpr ((h k).mp hk),
      fun k hk => List.elem_iff.mpr ((h k).mpr hk)⟩

/-- The semantic reading of `_has_changed` returning `False`: the
request-schema fingerprint (or its absence) matches, the recorded and
current status-code sets coincide, and every current response's
fingerprint equals the recorded one. -/
theorem hasChanged_false_iff (e : Endpoint) (m : TestFileMetadata) :
    hasChanged e m = false ↔
      (e.request_body.map SchemaRef.hash = m.request_schema_hash
      ∧ (∀ k, k ∈ (m.response_schema_hashes.getD []).map Prod.fst
          ↔ k ∈ e.responses.map Prod.fst)
      ∧ ∀ p ∈ e.responses,
          dictGet (m.response_schema_hashes.getD []) p.1 = some p.2.hash) := by
  unfold hasChanged
  by_cases h1 : e.request_body.map SchemaRef.hash = m.request_schema_hash
  · rw [if_neg (by simpa using h1)]
    by_cases h2 : keySetEqB ((m.response_schema_hashes.getD []).map Prod.fst)
        (e.responses.map Prod.fst) = true
    · rw [if_neg (by simpa using h2)]
      rw [keySetEqB_iff] at h2
      constructor
      · intro hany
        rw [List.any_eq_false] at hany
        refine ⟨h1, h2, fun p hp => ?_⟩
        have := hany p hp
        simpa using this
      · rintro ⟨-, -, hall⟩
        rw [List.any_eq_false]
        intro p hp
        simpa using hall p hp
    · rw [if_pos (by simpa using h2)]
      constructor
      · intro hfalse
        cases hfalse
      · rintro ⟨-, hks, -⟩
        exact absurd ((keySetEqB_iff _ _).mpr hks) h2
  · rw [if_pos (by simpa using h1)]
    constructor
    · intro hfalse
      cases hfalse
    · rintro ⟨hh, -, -⟩
      exact absurd hh h1

/-- C3: for every operation in the specification (with pairwise-distinct
operation identities), `compute_diff` classifies it create exactly when
its identity is absent from the record lookup; otherwise it classifies it
skip if and only if (a) the current request-schema fingerprint (or its
absence) equals the recorded request fingerprint, (b) the set of response
status codes equals the recorded set, and (c) every status code present
in both carries equal fingerprints; any difference classifies it
update. -/
theorem diff_classification (spec : APISpec) (existing : List TestFileMetadata)
    (hn1 : (spec.endpoints.map Endpoint.id).Nodup)
    (e : Endpoint) (he : e ∈ spec.endpoints) :
    (dictGet (buildDict (existing.map (fun t => (t.endpoint_id, t)))) e.id = none →
      e ∈ (compute_diff spec existing).create
      ∧ e.id ∉ (compute_diff spec existing).update
      ∧ e.id ∉ (compute_diff spec existing).skip)
    ∧ ∀ m, dictGet (buildDict (existing.map (fun t => (t.endpoint_id, t)))) e.id = some m →
        e ∉ (compute_diff spec existing).create
        ∧ ((e.id ∈ (compute_diff spec existing).skip) ↔
            (e.request_body.map SchemaRef.hash = m.request_schema_hash
            ∧ (∀ k, k ∈ (m.response_schema_hashes.getD []).map Prod.fst
                ↔ k ∈ e.responses.map Prod.fst)
            ∧ ∀ p ∈ e.responses,
                dictGet (m.response_schema_hashes.getD []) p.1 = some p.2.hash))
        ∧ ((e.id ∈ (compute_diff spec existing).update) ↔
            ¬ (e.request_body.map SchemaRef.hash = m.request_schema_hash
            ∧ (∀ k, k ∈ (m.response_schema_hashes.getD []).map Prod.fst
                ↔ k ∈ e.responses.map Prod.fst)
            ∧ ∀ p ∈ e.responses,
                dictGet (m.response_schema_hashes.getD []) p.1 = some p.2.hash)) := by
  have hinj := List.inj_on_of_nodup_map hn1
  constructor
  · intro hnone
    refine ⟨?_, ?_, ?_⟩
    · simp only [compute_diff, diffClassify_create]
      exact List.mem_filter.mpr ⟨he, by simp [hnone]⟩
    · simp only [compute_diff, diffClassify_update]
      intro hcon
      obtain ⟨e', he', hid⟩ := List.mem_map.mp hcon
      have hef := List.mem_filter.mp he'
      have : e' = e := hinj hef.1 he hid
      subst this
      rw [hnone] at hef
      simpa using hef.2
    · simp only [compute_diff, diffClassify_skip]
      intro hcon
      obtain ⟨e', he', hid⟩ := List.mem_map.mp hcon
      have hef := List.mem_filter.mp he'
      have : e' = e := hinj hef.1 he hid
      subst this
      rw [hnone] at hef
      simpa using hef.2
  · intro m hsome
    refine ⟨?_, ?_, ?_⟩
    · simp only [compute_diff, diffClassify_create]
      intro hcon
      have hef := List.mem_filter.mp hcon
      rw [hsome] at hef
      simpa using hef.2
    · rw [← hasChanged_false_iff e m]
      simp only [compute_diff, diffClassify_skip]
      constructor
      · intro hcon
        obtain ⟨e', he', hid⟩ := List.mem_map.mp hcon
        have hef := List.mem_filter.mp he'
        have : e' = e := hinj hef.1 he hid
        subst this
        rw [hsome] at hef
        simpa using hef.2
      · intro hch
        refine List.mem_map.mpr ⟨e, List.mem_filter.mpr ⟨he, ?_⟩, rfl⟩
        simp [hsome, hch]
    · rw [show (¬ (e.request_body.map SchemaRef.hash = m.request_schema_hash
          ∧ (∀ k, k ∈ (m.response_schema_hashes.getD []).map Prod.fst
              ↔ k ∈ e.responses.map Prod.fst)
          ∧ ∀ p ∈ e.responses,
              dictGet (m.response_schema_hashes.getD []) p.1 = some p.2.hash))
          = ¬ (hasChanged e m = false) from by rw [hasChanged_false_iff]]
      rw [Bool.not_eq_false]
      simp only [compute_diff, diffClassify_update]
      constructor
      · intro hcon
        obtain ⟨e', he', hid⟩ := List.mem_map.mp hcon
        have hef := List.mem_filter.mp he'
        have : e' = e := hinj hef.1 he hid
        subst this
        rw [hsome] at hef
        simpa using hef.2
      · intro hch
        refine List.mem_map.mpr ⟨e, List.mem_filter.mpr ⟨he, ?_⟩, rfl⟩
        simp [hsome, hch]

/-- A concrete one-operation specification and two records (one matched
and unchanged, one orphaned) used to witness the diff-engine theorems. -/
def specW : APISpec :=
  APISpec.mk "t" "1"
    [Endpoint.mk "get" "/users" none none [] none none none [("200", SchemaRef.empty)]] [] [] []

def metaW : TestFileMetadata :=
  TestFileMetadata.mk "tests/positive/get_users.py" "GET /users" none
    (some [("200", SchemaRef.empty.hash)])

def metaOrphanW : TestFileMetadata :=
  TestFileMetadata.mk "tests/positive/post_old.py" "POST /old" none none

/-- Witness for `diff_partition_totality` on `specW` and the two records:
the partition permutation holds and the orphaned record is the delete
list. -/
theorem diff_partition_totality_witness :
    (specW.endpoints.map Endpoint.id).Nodup
    ∧ ([metaW, metaOrphanW].map TestFileMetadata.endpoint_id).Nodup
    ∧ ((compute_diff specW [metaW, metaOrphanW]).create.map Endpoint.id
        ++ ((compute_diff specW [metaW, metaOrphanW]).update
        ++ (compute_diff specW [metaW, metaOrphanW]).skip)).Perm
          (specW.endpoints.map Endpoint.id)
    ∧ (compute_diff specW [metaW, metaOrphanW]).delete
        = [metaW, metaOrphanW].filter
            (fun t => ¬ (specW.endpoints.map Endpoint.id).contains t.endpoint_id) :=
  ⟨by decide, by decide,
    (diff_partition_totality specW [metaW, metaOrphanW] (by decide) (by decide)).1,
    (diff_partition_totality specW [metaW, metaOrphanW] (by decide) (by decide)).2.2.1⟩

/-- Witness for `diff_classification`: the matched, unchanged operation of
`specW` is classified skip. -/
theorem diff_classification_witness :
    (specW.endpoints.map Endpoint.id).Nodup
    ∧ (Endpoint.mk "get" "/users" none none [] none none none [("200", SchemaRef.empty)])
        ∈ specW.endpoints
    ∧ "GET /users" ∈ (compute_diff specW [metaW, metaOrphanW]).skip := by
  refine ⟨by decide, List.mem_cons_self _ _, ?_⟩
  have h := (diff_classification specW [metaW, metaOrphanW] (by decide)
    (Endpoint.mk "get" "/users" none none [] none none none [("200", SchemaRef.empty)])
    (List.mem_cons_self _ _)).2 metaW (by decide)
  have hskip := h.2.1.mpr ⟨by decide, fun k => Iff.rfl, by decide⟩
  simpa using hskip

/-- Python truthiness of an optional string: `None` and `""` are falsy. -/
def truthyStr : Option String → Bool
  | some s => s ≠ ""
  | none => false

/-- Python truthiness of an optional tuple/list/dict: `None` and an empty
container are falsy. -/
def truthyList {α : Type} : Option (List α) → Bool
  | some l => ¬ l.isEmpty
  | none => false

/-- Python truthiness of an optional integer: `None` and `0` are falsy. -/
def truthyInt : Option Int → Bool
  | some n => n ≠ 0
  | none => false

/-- Python `"a" * n` (negative `n` gives the empty string). -/
def pyRepeatA (n : Int) : String := String.mk (List.replicate n.toNat 'a')

/-- The `type == "string"` branch of `generate_payload`: `"test"`,
stretched with `"a" * min_length` when `min_length` is truthy and greater
than the current length, then truncated with `val[:max_length]` when
`max_length` is truthy and smaller than the current length. -/
def genString (mnl mxl : Option Int) : String :=
  let v0 := "test"
  let v1 := if truthyInt mnl ∧ (v0.data.length : Int) < mnl.getD 0
    then pyRepeatA (mnl.getD 0) else v0
  if truthyInt mxl ∧ (v1.data.length : Int) > mxl.getD 0
    then String.mk (v1.data.take (mxl.getD 0).toNat) else v1

/-- The `type == "integer"` / `type == "number"` branch of
`generate_payload`: `val = 1`, then `val = int(schema.minimum)` whenever
`minimum is not None`, then `val = int(schema.maximum)` when
`maximum is not None and val > maximum`. -/
def genInt (mn mx : Option Int) : Int :=
  let v0 : Int := 1
  let v1 := match mn with
    | some a => a
    | none => v0
  match mx with
  | some b => if v1 > b then b else v1
  | none => v1

/-- Python dict `d.update(u)`: upsert every entry of `u` into `d` in
order. -/
def dictUpdateMany (d u : List (String × Json)) : List (String × Json) :=
  u.foldl (fun acc p => dictUpsert acc p.1 p.2) d

mutual
/-- `generate_payload` from `generator/payloads.py`.  The `$ref`-resolution
recursion of the source can revisit schemas through `components` and need
not terminate, so the embedding consumes one unit of fuel per recursive
step; `none` means the recursion did not complete within the fuel (the
source either loops or raises there), `some Json.null` is Python's
`return None`.  Branch order follows the source: `$ref`, `allOf`,
`oneOf`, `anyOf`, `enum`, string, integer, number, boolean, array,
object, fallback `None`. -/
def generate_payload : Nat → SchemaRef → List (String × SchemaRef) → Option Json
  | 0, _, _ => none
  | fuel + 1, s, comps =>
    if truthyStr s.ref_name then genRef fuel (s.ref_name.getD "") comps
    else if truthyList s.all_of then genAllOf fuel (s.all_of.getD []) s.properties comps
    else if truthyList s.one_of then
      generate_payload fuel ((s.one_of.getD []).headD SchemaRef.empty) comps
    else if truthyList s.any_of then
      generate_payload fuel ((s.any_of.getD []).headD SchemaRef.empty) comps
    else if truthyList s.enum then some ((s.enum.getD []).headD Json.null)
    else if s.type = some "string" then some (Json.str (genString s.min_length s.max_length))
    else if s.type = some "integer" then some (Json.num (genInt s.minimum s.maximum))
    else if s.type = some "number" then some (Json.num (genInt s.minimum s.maximum))
    else if s.type = some "boolean" then some (Json.bool true)
    else if s.type = some "array" then genArray fuel s.items comps
    else if s.type = some "object" ∨ (s.type = none ∧ truthyList s.properties) then
      (genProps fuel (s.properties.getD []) comps).map Json.obj
    else some Json.null

/-- The `$ref` branch: resolve against `components`; an unresolved name
returns Python `None`. -/
def genRef : Nat → String → List (String × SchemaRef) → Option Json
  | 0, _, _ => none
  | fuel + 1, name, comps =>
    match dictGet comps name with
    | some resolved => generate_payload fuel resolved comps
    | none => some Json.null

/-- The `allOf` branch: fold the member payloads into `final_result`,
then merge the local properties into it when it is a dictionary. -/
def genAllOf : Nat → List SchemaRef → Option (List (String × SchemaRef)) →
    List (String × SchemaRef) → Option Json
  | 0, _, _, _ => none
  | fuel + 1, subs, props, comps =>
    match genAllOfFold fuel subs comps (Json.obj []) with
    | none => none
    | some fr =>
      if truthyList props then
        match genProps fuel (props.getD []) comps with
        | none => none
        | some lp =>
          match fr with
          | Json.obj kvs => some (Json.obj (dictUpdateMany kvs lp))
          | other => some other
      else some fr

/-- The `for sub in schema.all_of` loop: a dictionary member payload is
merged into the accumulator (crashing — modelled `none` — when the
accumulator is no longer a dictionary), `None` is skipped, any other
payload replaces the accumulator. -/
def genAllOfFold : Nat → List SchemaRef → List (String × SchemaRef) → Json → Option Json
  | 0, _, _, _ => none
  | _ + 1, [], _, acc => some acc
  | fuel + 1, sub :: rest, comps, acc =>
    match generate_payload fuel sub comps with
    | none => none
    | some (Json.obj kvs) =>
      match acc with
      | Json.obj acckvs => genAllOfFold fuel rest comps (Json.obj (dictUpdateMany acckvs kvs))
      | _ => none
    | some Json.null => genAllOfFold fuel rest comps acc
    | some other => genAllOfFold fuel rest comps other

/-- The `type == "array"` branch: a one-element list of the items
payload, or `[]` when no items schema is declared. -/
def genArray : Nat → Option SchemaRef → List (String × SchemaRef) → Option Json
  | 0, _, _ => none
  | fuel + 1, some it, comps => (generate_payload fuel it comps).map (fun p => Json.arr [p])
  | _ + 1, none, _ => some (Json.arr [])

/-- The object branch: one entry per declared property, skipping
`readOnly` properties. -/
def genProps : Nat → List (String × SchemaRef) → List (String × SchemaRef) →
    Option (List (String × Json))
  | 0, _, _ => none
  | _ + 1, [], _ => some []
  | fuel + 1, (k, p) :: rest, comps =>
    if p.read_only then genProps fuel rest comps
    else
      match generate_payload fuel p comps, genProps fuel rest comps with
      | some v, some r => some ((k, v) :: r)
      | _, _ => none
end

/-- C7 counterexample: the integer schema `{minimum: 0, maximum: 100}`
yields sample value `0`, not `1` — the generator assigns the declared
minimum unconditionally, it does not clamp `1` upward. -/
theorem generate_payload_minimum_zero_counterexample :
    generate_payload 1
      (SchemaRef.mk none (some "integer") none none none false none none none none
        none none (some 0) (some 100) none false false none) []
      = some (Json.num 0)
    ∧ Json.num 0 ≠ Json.num 1 := by decide

/-- C7 (amended): for every integer or number primitive schema the sample
payload is the declared minimum whenever `minimum` is declared (`1`
otherwise), lowered to the declared maximum exactly when the value so far
exceeds it; in particular a declared minimum less than `1` (e.g. `0`) is
returned as-is, not raised to `1`. -/
theorem generate_payload_numeric_clamp
    (fuel : Nat) (comps : List (String × SchemaRef))
    (props : Option (List (String × SchemaRef))) (itms : Option SchemaRef)
    (req : Option (List String)) (nu : Bool) (mnl mxl : Option Int)
    (pa : Option String) (ro wo : Bool) (ex : Option (List (String × Json)))
    (ty : String) (hty : ty = "integer" ∨ ty = "number") (mn mx : Option Int) :
    generate_payload (fuel + 1)
      (SchemaRef.mk none (some ty) props itms req nu none none none none
        mnl mxl mn mx pa ro wo ex) comps
      = some (Json.num (genInt mn mx))
    ∧ genInt mn mx = (match mn, mx with
        | none, none => 1
        | none, some b => if 1 > b then b else 1
        | some a, none => a
        | some a, some b => if a > b then b else a)
    ∧ (∀ a : Int, a < 1 → genInt (some a) none = a)
    ∧ (∀ a b : Int, a ≤ b → genInt (some a) (some b) = a) := by
  refine ⟨?_, ?_, ?_, ?_⟩
  · rcases hty with h | h <;> subst h <;>
      simp [generate_payload, SchemaRef.ref_name, SchemaRef.all_of, SchemaRef.one_of,
        SchemaRef.any_of, SchemaRef.enum, SchemaRef.type, SchemaRef.minimum, SchemaRef.maximum,
        truthyStr, truthyList]
  · unfold genInt
    cases mn <;> cases mx <;> simp
  · intro a ha
    simp [genInt]
  · intro a b hab
    simp [genInt]
    omega

/-- Witness for `generate_payload_numeric_clamp` at the integer type and
`minimum 2, maximum 10`. -/
theorem generate_payload_numeric_clamp_witness :
    ("integer" = "integer" ∨ "integer" = "number")
    ∧ generate_payload 1
        (SchemaRef.mk none (some "integer") none none none false none none none none
          none none (some 2) (some 10) none false false none) []
        = some (Json.num (genInt (some 2) (some 10))) :=
  ⟨Or.inl rfl,
    (generate_payload_numeric_clamp 0 [] none none none false none none none false false none
      "integer" (Or.inl rfl) (some 2) (some 10)).1⟩

/-- `INJECTION_PAYLOADS` from `negative/mutation_engine.py`. -/
def INJECTION_PAYLOADS : List String :=
  ["\x27 OR 1=1 --",
   "\x22; DROP TABLE users; --",
   "<script>alert(1)</script>",
   "<img src=x onerror=alert(1)>",
   "../../etc/passwd",
   "$(whoami)",
   "\x7b\x7b7*7\x7d\x7d"]

/-- `MutationEngine._get_wrong_type_value`. -/
def wrongTypeValue : String → Json
  | "string" => Json.num 123
  | "integer" => Json.str "not-a-number"
  | "number" => Json.str "not-a-number"
  | "boolean" => Json.str "not-a-boolean"
  | "array" => Json.str "not-an-array"
  | "object" => Json.str "not-an-object"
  | _ => Json.bool true

/-- `MutationEngine._resolve_schema`: a truthy `ref_name` is looked up in
`components` with the schema itself as fallback. -/
def resolve_schema (comps : List (String × SchemaRef)) (s : SchemaRef) : SchemaRef :=
  if truthyStr s.ref_name then (dictGet comps (s.ref_name.getD "")).getD s else s

/-- Python `del d[k]` on the association-list model. -/
def removeKey (l : List (String × Json)) (k : String) : List (String × Json) :=
  l.filter (fun p => ¬ (p.1 = k))

/-- `MutationEngine._generate_property_mutations` from
`negative/mutation_engine.py`.  `pickEnum` stands for the source's
rejection-sampling loop drawing `f"invalid_enum_{random.randint(...)}"`
until the value is outside the declared enum; it is never invoked for
enum-free schemas.  The seven mutation families appear in source order:
type mismatch, null injection, enum violation, numeric boundaries, string
lengths, format violations, injection payloads. -/
def generate_property_mutations (pickEnum : List Json → String)
    (comps : List (String × SchemaRef)) (name : String) (pschema : SchemaRef)
    (bp : List (String × Json)) : List (String × Json) :=
  let resolved := resolve_schema comps pschema
  if ¬ bp.any (fun p => p.1 == name) then []
  else
    let tyName := if truthyStr resolved.type then resolved.type.getD "" else "string"
    ([("invalid_type_" ++ name, Json.obj (dictUpsert bp name (wrongTypeValue tyName)))])
    ++ (if ¬ resolved.nullable then
        [("null_injection_" ++ name, Json.obj (dictUpsert bp name Json.null))] else [])
    ++ (if truthyList resolved.enum then
        [("invalid_enum_" ++ name,
          Json.obj (dictUpsert bp name (Json.str (pickEnum (resolved.enum.getD [])))))]
        else [])
    ++ (if resolved.type = some "integer" ∨ resolved.type = some "number" then
        (match resolved.minimum with
          | some mn => [("boundary_min_violation_" ++ name,
              Json.obj (dictUpsert bp name (Json.num (mn - 1))))]
          | none => [])
        ++ (match resolved.maximum with
          | some mx => [("boundary_max_violation_" ++ name,
              Json.obj (dictUpsert bp name (Json.num (mx + 1))))]
          | none => [])
        else [])
    ++ (if resolved.type = some "string" then
        (match resolved.min_length with
          | some ml => if ml > 0 then
              [("boundary_min_length_violation_" ++ name,
                Json.obj (dictUpsert bp name (Json.str (pyRepeatA (ml - 1)))))]
              else []
          | none => [])
        ++ (match resolved.max_length with
          | some xl => [("boundary_max_length_violation_" ++ name,
              Json.obj (dictUpsert bp name (Json.str (pyRepeatA (xl + 1)))))]
          | none => [("oversized_string_" ++ name,
              Json.obj (dictUpsert bp name (Json.str (pyRepeatA 5000))))])
        else [])
    ++ (match (if truthyList resolved.extra then dictGet (resolved.extra.getD []) "format"
          else none) with
        | some (Json.str "email") =>
            [("invalid_format_email_" ++ name,
              Json.obj (dictUpsert bp name (Json.str "not-an-email")))]
        | some (Json.str "uuid") =>
            [("invalid_format_uuid_" ++ name,
              Json.obj (dictUpsert bp name (Json.str "not-a-uuid")))]
        | _ => [])
    ++ (INJECTION_PAYLOADS.enum.map (fun q =>
        ("injection_" ++ name ++ "_" ++ toString q.1,
          Json.obj (dictUpsert bp name (Json.str q.2)))))

/-- `MutationEngine.generate_mutations` from `negative/mutation_engine.py`:
for a resolved object schema and a dictionary base payload, required-field
removals, one extra unexpected field, and per-property mutations, in
source order; anything else yields no mutations. -/
def generate_mutations (pickEnum : List Json → String)
    (comps : List (String × SchemaRef)) (schema : SchemaRef) (base : Json) :
    List (String × Json) :=
  let resolved := resolve_schema comps schema
  match base with
  | Json.obj bp =>
    if resolved.type = some "object" then
      ((resolved.required.getD []).filterMap (fun f =>
        if bp.any (fun p => p.1 == f) then
          some ("missing_required_field_" ++ f, Json.obj (removeKey bp f))
        else none))
      ++ [("extra_unexpected_field",
          Json.obj (dictUpsert bp "hacker_extra_field" (Json.str "unexpected_value")))]
      ++ (if truthyList resolved.properties then
          (resolved.properties.getD []).flatMap (fun q =>
            generate_property_mutations pickEnum comps q.1 q.2 bp)
          else [])
    else []
  | _ => []

/-- Whether base and mutated payload disagree at key `k` (different value,
or present in only one of the two). -/
def keyDiffers (base mutated : List (String × Json)) (k : String) : Bool :=
  ¬ (dictGet base k = dictGet mutated k)

/-- The number of keys at which two payload dictionaries disagree. -/
def diffKeyCount (base mutated : List (String × Json)) : Nat :=
  ((base.map Prod.fst ++ mutated.map Prod.fst).dedup).countP (keyDiffers base mutated)

/-- The object schema of the mutation-minimality property:
`required:[a,b]`, one property `a : integer, minimum 0, maximum 100`. -/
def mutSchemaC : SchemaRef :=
  SchemaRef.mk none (some "object")
    (some [("a", SchemaRef.mk none (some "integer") none none none false none none none none
      none none (some 0) (some 100) none false false none)])
    none (some ["a", "b"]) false none none none none none none none none none false false none

/-- The baseline payload `{a: 50, b: 1}`. -/
def mutBaseC : List (String × Json) := [("a", Json.num 50), ("b", Json.num 1)]

/-- Whether a mutated payload is a dictionary differing from the base in
exactly one key (a removed key counts as the one difference). -/
def payloadDiffersInOneKey (base : List (String × Json)) : Json → Bool
  | Json.obj kvs => diffKeyCount base kvs == 1
  | _ => false

/-- C6: on the schema `{required:[a,b], properties:{a:{type:integer,
minimum:0, maximum:100}}}` with baseline `{a:50,b:1}`, the mutation
engine yields (among others) the cases `missing_required_field_a`,
`missing_required_field_b`, `invalid_type_a`, `boundary_min_violation_a`
with `a = minimum - 1 = -1` and `boundary_max_violation_a` with
`a = maximum + 1 = 101`; and every yielded case's payload differs from
the baseline in exactly one key (the removal cases by key absence).
`pickEnum` (the source's random enum draw) and `comps` are arbitrary: no
enum or reference occurs in this schema. -/
theorem mutation_minimality (pickEnum : List Json → String)
    (comps : List (String × SchemaRef)) :
    ("missing_required_field_a", Json.obj [("b", Json.num 1)])
      ∈ generate_mutations pickEnum comps mutSchemaC (Json.obj mutBaseC)
    ∧ ("missing_required_field_b", Json.obj [("a", Json.num 50)])
      ∈ generate_mutations pickEnum comps mutSchemaC (Json.obj mutBaseC)
    ∧ ("invalid_type_a", Json.obj [("a", Json.str "not-a-number"), ("b", Json.num 1)])
      ∈ generate_mutations pickEnum comps mutSchemaC (Json.obj mutBaseC)
    ∧ ("boundary_min_violation_a", Json.obj [("a", Json.num (0 - 1)), ("b", Json.num 1)])
      ∈ generate_mutations pickEnum comps mutSchemaC (Json.obj mutBaseC)
    ∧ ("boundary_max_violation_a", Json.obj [("a", Json.num (100 + 1)), ("b", Json.num 1)])
      ∈ generate_mutations pickEnum comps mutSchemaC (Json.obj mutBaseC)
    ∧ ∀ q ∈ generate_mutations pickEnum comps mutSchemaC (Json.obj mutBaseC),
        payloadDiffersInOneKey mutBaseC q.2 = true := by
  have hM : generate_mutations pickEnum comps mutSchemaC (Json.obj mutBaseC) =
      [("missing_required_field_a", Json.obj [("b", Json.num 1)]),
       ("missing_required_field_b", Json.obj [("a", Json.num 50)]),
       ("extra_unexpected_field",
        Json.obj [("a", Json.num 50), ("b", Json.num 1),
          ("hacker_extra_field", Json.str "unexpected_value")]),
       ("invalid_type_a", Json.obj [("a", Json.str "not-a-number"), ("b", Json.num 1)]),
       ("null_injection_a", Json.obj [("a", Json.null), ("b", Json.num 1)]),
       ("boundary_min_violation_a", Json.obj [("a", Json.num (-1)), ("b", Json.num 1)]),
       ("boundary_max_violation_a", Json.obj [("a", Json.num 101), ("b", Json.num 1)]),
       ("injection_a_0", Json.obj [("a", Json.str "\x27 OR 1=1 --"), ("b", Json.num 1)]),
       ("injection_a_1", Json.obj [("a", Json.str "\x22; DROP TABLE users; --"), ("b", Json.num 1)]),
       ("injection_a_2", Json.obj [("a", Json.str "<script>alert(1)</script>"), ("b", Json.num 1)]),
       ("injection_a_3", Json.obj [("a", Json.str "<img src=x onerror=alert(1)>"), ("b", Json.num 1)]),
       ("injection_a_4", Json.obj [("a", Json.str "../../etc/passwd"), ("b", Json.num 1)]),
       ("injection_a_5", Json.obj [("a", Json.str "$(whoami)"), ("b", Json.num 1)]),
       ("injection_a_6", Json.obj [("a", Json.str "\x7b\x7b7*7\x7d\x7d"), ("b", Json.num 1)])] := rfl
  rw [hM]
  refine ⟨by decide, by decide, by decide, by decide, by decide, by decide⟩

/-- Python `s.lstrip("#/")`: drop every leading `#` or `/`. -/
def pyLstripHashSlash (s : String) : String :=
  String.mk (s.data.dropWhile (fun c => c = '#' ∨ c = '/'))

/-- Python `pre in s`-style prefix test `s.startswith(pre)`. -/
def pyStartsWith (pre s : String) : Bool := pre.data.isPrefixOf s.data

def splitSlashGo : List Char → List Char → List String
  | [], acc => [String.mk acc.reverse]
  | '/' :: rest, acc => String.mk acc.reverse :: splitSlashGo rest []
  | c :: rest, acc => splitSlashGo rest (c :: acc)

/-- Python `s.split("/")`. -/
def splitSlash (s : String) : List String := splitSlashGo s.data []

def walkParts : Json → List String → Option Json
  | cur, [] => some cur
  | Json.obj kvs, part :: rest =>
    match dictGet kvs part with
    | some nxt => walkParts nxt rest
    | none => none
  | _, _ :: _ => none

/-- `OpenAPIParser._resolve_ref`: walk the document along the reference
path.  The source raises `NotImplementedError` for external references
and `ValueError` for unresolvable paths; both are `none` here. -/
def resolve_ref (doc : Json) (ref_path : String) : Option Json :=
  if pyStartsWith "#/" ref_path then
    walkParts doc (splitSlash (pyLstripHashSlash ref_path))
  else none

/-- Value of an optional raw numeric field (`schema.get(key)`); `none`
for a raw value outside this embedding's typed field (no claim exercises
such a document). -/
def jNumField : Option Json → Option (Option Int)
  | none => some none
  | some (Json.num n) => some (some n)
  | some _ => none

def jStrFieldOpt : Option Json → Option (Option String)
  | none => some none
  | some (Json.str s) => some (some s)
  | some _ => none

def jBoolFieldD (d : Bool) : Option Json → Option Bool
  | none => some d
  | some (Json.bool b) => some b
  | some _ => none

def jArrField : Option Json → Option (Option (List Json))
  | none => some none
  | some (Json.arr l) => some (some l)
  | some _ => none

def allStrings : List Json → Option (List String)
  | [] => some []
  | Json.str s :: rest => (allStrings rest).map (s :: ·)
  | _ :: _ => none

/-- The `required` field: `tuple(sorted(schema.get("required", [])))`
when the key is present. -/
def jReqField : Option Json → Option (Option (List String))
  | none => some none
  | some (Json.arr l) => (allStrings l).map (fun ss => some (sortStrings ss))
  | some _ => none

/-- Generic dict `d.update(u)` (used for the `allOf` property merge). -/
def dictUpdate {α : Type} (d u : List (String × α)) : List (String × α) :=
  u.foldl (fun acc p => dictUpsert acc p.1 p.2) d

/-- Python `set.update`: append the elements not yet present. -/
def setAddAll (acc : List String) (l : List String) : List String :=
  l.foldl (fun a s => if a.contains s then a else a ++ [s]) acc

/-- The local `required` merge of the `allOf` branch
(`merged_required.update(schema["required"])`). -/
def localReqMerge : Option Json → List String → Option (List String)
  | none, req => some req
  | some (Json.arr l), req => (allStrings l).map (setAddAll req)
  | some _, _ => none

/-!
`OpenAPIParser._convert_schema` recurses through `_resolve_ref` and need
not terminate, so the embedding is a fuel-indexed fixpoint
(`convert_schema`) of one resolution step (`convertStep`); each helper
below receives the recursive call `conv` (one level deeper, one unit of
fuel less) as an argument.  `none` covers fuel exhaustion and the raised
exceptions of the source (unresolved reference, iteration over a
non-list, a constraint value outside this embedding's typed fields).
-/

def convertListF (conv : List (String × Json) → Option SchemaRef) :
    List Json → Option (List SchemaRef)
  | [] => some []
  | Json.obj kvs :: rest => (conv kvs).bind fun r => (convertListF conv rest).map (r :: ·)
  | _ :: _ => none

def convertListOptF (conv : List (String × Json) → Option SchemaRef) :
    Option Json → Option (Option (List SchemaRef))
  | none => some none
  | some (Json.arr l) => (convertListF conv l).map some
  | some _ => none

def convertPropsF (conv : List (String × Json) → Option SchemaRef) :
    List (String × Json) → Option (List (String × SchemaRef))
  | [] => some []
  | (k, Json.obj kvs) :: rest =>
    (conv kvs).bind fun r => (convertPropsF conv rest).map ((k, r) :: ·)
  | _ :: _ => none

/-- `properties`: converted entries, with `properties or None` turning an
empty dictionary into `None`. -/
def convertPropsOptF (conv : List (String × Json) → Option SchemaRef) :
    Option Json → Option (Option (List (String × SchemaRef)))
  | none => some none
  | some (Json.obj kvs) =>
    (convertPropsF conv kvs).map (fun l => if l.isEmpty then none else some l)
  | some _ => none

def convertItemsOptF (conv : List (String × Json) → Option SchemaRef) :
    Option Json → Option (Option SchemaRef)
  | none => some none
  | some (Json.obj kvs) => (conv kvs).map some
  | some _ => none

/-- The plain (no `$ref`, no `allOf`) branch: `oneOf`/`anyOf` stored
verbatim, properties and items converted, constraint fields copied, and
no `extra` recorded. -/
def convertPlainF (conv : List (String × Json) → Option SchemaRef)
    (schema : List (String × Json)) : Option SchemaRef :=
  (convertListOptF conv (dictGet schema "oneOf")).bind fun oo =>
  (convertListOptF conv (dictGet schema "anyOf")).bind fun ano =>
  (jStrFieldOpt (dictGet schema "type")).bind fun ty =>
  (jBoolFieldD false (dictGet schema "nullable")).bind fun nu =>
  (convertPropsOptF conv (dictGet schema "properties")).bind fun props =>
  (convertItemsOptF conv (dictGet schema "items")).bind fun itms =>
  (jReqField (dictGet schema "required")).bind fun req =>
  (jArrField (dictGet schema "enum")).bind fun en =>
  (jNumField (dictGet schema "minLength")).bind fun mnl =>
  (jNumField (dictGet schema "maxLength")).bind fun mxl =>
  (jNumField (dictGet schema "minimum")).bind fun mn =>
  (jNumField (dictGet schema "maximum")).bind fun mx =>
  (jStrFieldOpt (dictGet schema "pattern")).bind fun pa =>
  (jBoolFieldD false (dictGet schema "readOnly")).bind fun ro =>
  (jBoolFieldD false (dictGet schema "writeOnly")).map fun wo =>
  SchemaRef.mk none ty props itms req nu en none oo ano mnl mxl mn mx pa ro wo none

/-- `allOf` member dereference: a member that is a `Reference` is looked
up in `components/schemas` and converted so its properties are visible. -/
def derefSubF (conv : List (String × Json) → Option SchemaRef) (doc : Json)
    (sub : SchemaRef) : Option SchemaRef :=
  if truthyStr sub.ref_name then
    match resolve_ref doc ("#/components/schemas/" ++ sub.ref_name.getD "") with
    | some (Json.obj kvs) => conv kvs
    | _ => none
  else some sub

/-- The `for sub_schema_dict in schema["allOf"]` loop, accumulating
(merged properties, merged required set, base type). -/
def allOfFoldF (conv : List (String × Json) → Option SchemaRef) (doc : Json) :
    List Json → List (String × SchemaRef) → List String → Option String →
    Option (List (String × SchemaRef) × List String × Option String)
  | [], props, req, ty => some (props, req, ty)
  | Json.obj sd :: rest, props, req, ty =>
    (conv sd).bind fun sub0 =>
    (derefSubF conv doc sub0).bind fun sub =>
    allOfFoldF conv doc rest
      (if truthyList sub.properties then dictUpdate props (sub.properties.getD []) else props)
      (if truthyList sub.required then setAddAll req (sub.required.getD []) else req)
      (if truthyStr sub.type then sub.type else ty)
  | _ :: _, _, _, _ => none

/-- The local `properties` merge of the `allOf` branch. -/
def localPropsMergeF (conv : List (String × Json) → Option SchemaRef) :
    Option Json → List (String × SchemaRef) → Option (List (String × SchemaRef))
  | none, props => some props
  | some (Json.obj kvs), props => (convertPropsF conv kvs).map (fun l => dictUpdate props l)
  | some _, _ => none

/-- The `allOf` branch: members converted and flattened (references
expanded one level), properties right-biased-merged, required set-unioned,
type taken from the last typed member, defaulting to `"object"`. -/
def convertAllOfF (conv : List (String × Json) → Option SchemaRef) (doc : Json)
    (subs : List Json) (schema : List (String × Json)) : Option SchemaRef :=
  (jStrFieldOpt (dictGet schema "type")).bind fun ty0 =>
  (allOfFoldF conv doc subs [] [] ty0).bind fun acc =>
  (localPropsMergeF conv (dictGet schema "properties") acc.1).bind fun mprops =>
  (localReqMerge (dictGet schema "required") acc.2.1).bind fun mreq =>
  (convertListF conv subs).map fun aoList =>
  SchemaRef.mk none
    (some (if truthyStr acc.2.2 then acc.2.2.getD "" else "object"))
    (if mprops.isEmpty then none else some mprops) none
    (if mreq.isEmpty then none else some (sortStrings mreq))
    false none (some aoList) none none none none none none none false false none

/-- The `$ref` branch: a local component reference becomes
`SchemaRef(ref_name=...)`; any other reference is resolved immediately
and converted. -/
def convertRefF (conv : List (String × Json) → Option SchemaRef) (doc : Json) :
    Json → Option SchemaRef
  | Json.str path =>
    if pyStartsWith "#/components/schemas/" path then
      some (SchemaRef.mk (some ((splitSlash path).getLastD "")) none none none none false
        none none none none none none none none none false false none)
    else
      match resolve_ref doc path with
      | some (Json.obj resolved) => conv resolved
      | _ => none
  | _ => none

def convertDispatch (conv : List (String × Json) → Option SchemaRef) (doc : Json)
    (schema : List (String × Json)) : Option Json → Option Json → Option SchemaRef
  | some rp, _ => convertRefF conv doc rp
  | none, some (Json.arr subs) => convertAllOfF conv doc subs schema
  | none, some _ => none
  | none, none => convertPlainF conv schema

/-- One step of `OpenAPIParser._convert_schema`: the empty schema becomes
`SchemaRef(extra={})`; otherwise dispatch on `$ref` and `allOf`. -/
def convertStep (conv : List (String × Json) → Option SchemaRef) (doc : Json)
    (schema : List (String × Json)) : Option SchemaRef :=
  if schema.isEmpty then
    some (SchemaRef.mk none none none none none false none none none none
      none none none none none false false (some []))
  else convertDispatch conv doc schema (dictGet schema "$ref") (dictGet schema "allOf")

/-- `OpenAPIParser._convert_schema`, as the fuel-indexed fixpoint of
`convertStep`. -/
def convert_schema : Nat → Json → List (String × Json) → Option SchemaRef
  | 0, _, _ => none
  | fuel + 1, doc, schema => convertStep (convert_schema fuel doc) doc schema

/-- C8 counterexample: resolving the raw schema
`{"type": "string", "format": "email", "x-vendor": 1}` yields a
`SchemaRef` whose `extra` field is `None` — the free-form format tag and
the unrecognized key are dropped, not preserved. -/
theorem convert_schema_drops_format_counterexample :
    convert_schema 2 (Json.obj [])
      [("type", Json.str "string"), ("format", Json.str "email"), ("x-vendor", Json.num 1)]
      = some (SchemaRef.mk none (some "string") none none none false none none none none
          none none none none none false false none)
    ∧ (SchemaRef.mk none (some "string") none none none false none none none none
        none none none none none false false none).extra = none := ⟨rfl, rfl⟩

/-- C8 (amended): for every raw schema without `$ref` or `allOf` that
resolution completes on, the constraint fields `minimum`, `maximum`,
`minLength`, `maxLength`, `pattern`, `enum`, `readOnly` and `writeOnly`
are copied through unchanged to the canonical `SchemaRef`; the free-form
`format` tag and all unrecognized keys are dropped — the `extra`
side-channel of the result is `None` (the parser populates it only for
the empty schema and for contentless responses), not a store of the
unrecognized keys. -/
theorem convert_schema_constraints (fuel : Nat) (doc : Json)
    (schema : List (String × Json)) (r : SchemaRef)
    (hne : schema.isEmpty = false)
    (href : dictGet schema "$ref" = none)
    (hao : dictGet schema "allOf" = none)
    (hc : convert_schema (fuel + 1) doc schema = some r) :
    jNumField (dictGet schema "minimum") = some r.minimum
    ∧ jNumField (dictGet schema "maximum") = some r.maximum
    ∧ jNumField (dictGet schema "minLength") = some r.min_length
    ∧ jNumField (dictGet schema "maxLength") = some r.max_length
    ∧ jStrFieldOpt (dictGet schema "pattern") = some r.pattern
    ∧ jArrField (dictGet schema "enum") = some r.enum
    ∧ jBoolFieldD false (dictGet schema "readOnly") = some r.read_only
    ∧ jBoolFieldD false (dictGet schema "writeOnly") = some r.write_only
    ∧ r.extra = none := by
  rw [convert_schema, convertStep, if_neg (by simp [hne]), href, hao] at hc
  rw [convertDispatch, convertPlainF] at hc
  obtain ⟨oo, hoo, hc⟩ := Option.bind_eq_some.mp hc
  obtain ⟨ano, hano, hc⟩ := Option.bind_eq_some.mp hc
  obtain ⟨ty, hty, hc⟩ := Option.bind_eq_some.mp hc
  obtain ⟨nu, hnu, hc⟩ := Option.bind_eq_some.mp hc
  obtain ⟨props, hprops, hc⟩ := Option.bind_eq_some.mp hc
  obtain ⟨itms, hitms, hc⟩ := Option.bind_eq_some.mp hc
  obtain ⟨req, hreq, hc⟩ := Option.bind_eq_some.mp hc
  obtain ⟨en, hen, hc⟩ := Option.bind_eq_some.mp hc
  obtain ⟨mnl, hmnl, hc⟩ := Option.bind_eq_some.mp hc
  obtain ⟨mxl, hmxl, hc⟩ := Option.bind_eq_some.mp hc
  obtain ⟨mn, hmn, hc⟩ := Option.bind_eq_some.mp hc
  obtain ⟨mx, hmx, hc⟩ := Option.bind_eq_some.mp hc
  obtain ⟨pa, hpa, hc⟩ := Option.bind_eq_some.mp hc
  obtain ⟨ro, hro, hc⟩ := Option.bind_eq_some.mp hc
  obtain ⟨wo, hwo, hr⟩ := Option.map_eq_some'.mp hc
  subst hr
  exact ⟨by simpa [SchemaRef.minimum] using hmn,
    by simpa [SchemaRef.maximum] using hmx,
    by simpa [SchemaRef.min_length] using hmnl,
    by simpa [SchemaRef.max_length] using hmxl,
    by simpa [SchemaRef.pattern] using hpa,
    by simpa [SchemaRef.enum] using hen,
    by simpa [SchemaRef.read_only] using hro,
    by simpa [SchemaRef.write_only] using hwo,
        rfl⟩

/-- Witness for `convert_schema_constraints` at a string schema carrying
every constraint field. -/
theorem convert_schema_constraints_witness :
    ([("type", Json.str "string"), ("minLength", Json.num 1), ("maxLength", Json.num 5),
      ("pattern", Json.str "^a"), ("enum", Json.arr [Json.str "a"]),
      ("readOnly", Json.bool true), ("writeOnly", Json.bool false),
      ("minimum", Json.num 2), ("maximum", Json.num 9)] :
        List (String × Json)).isEmpty = false
    ∧ jNumField (dictGet [("type", Json.str "string"), ("minLength", Json.num 1),
        ("maxLength", Json.num 5), ("pattern", Json.str "^a"),
        ("enum", Json.arr [Json.str "a"]), ("readOnly", Json.bool true),
        ("writeOnly", Json.bool false), ("minimum", Json.num 2), ("maximum", Json.num 9)]
        "minimum")
      = some (SchemaRef.mk none (some "string") none none none false
          (some [Json.str "a"]) none none none (some 1) (some 5) (some 2) (some 9)
          (some "^a") true false none).minimum :=
  ⟨rfl,
    (convert_schema_constraints 1 (Json.obj [])
      [("type", Json.str "string"), ("minLength", Json.num 1), ("maxLength", Json.num 5),
       ("pattern", Json.str "^a"), ("enum", Json.arr [Json.str "a"]),
       ("readOnly", Json.bool true), ("writeOnly", Json.bool false),
       ("minimum", Json.num 2), ("maximum", Json.num 9)]
      (SchemaRef.mk none (some "string") none none none false (some [Json.str "a"])
        none none none (some 1) (some 5) (some 2) (some 9) (some "^a") true false none)
      rfl rfl rfl rfl).1⟩

/-!
The materializer `GenerationEngine._assemble_test_file` operates on the
file text; this embedding models the text as its list of lines (`Line`,
a `List Char` without the terminating newline — every content this
function produces or rereads ends in a newline).  The source's regular
expressions are line-oriented: `(def NAME\(\):.*?\n)` matches a line
containing `def NAME():` up to its newline, and the block pattern then
requires nothing but whitespace (`\s+`, at least one character) between
that newline and the literal start marker, and consumes minimally up to
the literal end marker.
-/

/-- Python `\s` (ASCII range; the materializer only meets ASCII). -/
def pyIsSpace (c : Char) : Bool :=
  c = ' ' ∨ c = '\t' ∨ c = '\n' ∨ c = '\r' ∨ c = '\x0b' ∨ c = '\x0c'

/-- Split a line at the first occurrence of `pat`: `l = a ++ pat ++ b`
with `a` shortest, returning `(a, b)`. -/
def splitOnSub (pat : List Char) : List Char → Option (List Char × List Char)
  | [] => if pat.isPrefixOf [] then some ([], []) else none
  | c :: t =>
    if pat.isPrefixOf (c :: t) then some ([], (c :: t).drop pat.length)
    else (splitOnSub pat t).map (fun q => (c :: q.1, q.2))

/-- Whether `pat` occurs as a contiguous substring of `l`. -/
def containsSub (pat l : List Char) : Bool := (splitOnSub pat l).isSome

/-- A line of nothing but whitespace (including the empty line, whose
newline character is whitespace). -/
def wsOnly (l : List Char) : Bool := l.all pyIsSpace

def startMarkerL : List Char := "# --- AUTO-GENERATED START ---".data
def endMarkerL : List Char := "# --- AUTO-GENERATED END ---".data
def indent4L : List Char := "    ".data

/-- The pattern `def {func_name}():` of the materializer's regexes. -/
def defPatL (name : String) : List Char := "def ".data ++ name.data ++ "():".data

/-- One synthesized test of `_assemble_test_file`'s `tests` argument:
`(func_name, body_lines, decorators)`. -/
structure TestDef where
  name : String
  body : List (List Char)
  decorators : List (List Char)

/-- The old-metadata filter of the update path: lines starting with
`# endpoint_id:`, `# last_generated:`, `# request_schema_hash:` or
matching `# response_schema_hash_\w+:` are removed. -/
def isRespHashLine (l : List Char) : Bool :=
  ("# response_schema_hash_".data).isPrefixOf l &&
    (let rest := l.drop ("# response_schema_hash_".data).length
     let w := rest.takeWhile (fun c => c.isAlpha || c.isDigit || c = '_')
     ¬ w.isEmpty && ((rest.drop w.length).headD ' ' = ':'))

def isMetadataLine (l : List Char) : Bool :=
  ("# endpoint_id:".data).isPrefixOf l || ("# last_generated:".data).isPrefixOf l ||
  ("# request_schema_hash:".data).isPrefixOf l || isRespHashLine l

/-- The delimited region emitted for a test body (`auto_block`). -/
def autoBlockLines (body : List (List Char)) : List (List Char) :=
  (indent4L ++ startMarkerL) :: body.map (indent4L ++ ·) ++ [indent4L ++ endMarkerL]

/-- One test's chunk of a freshly created file: decorators, the def line,
the delimited region, a blank line. -/
def freshChunk (t : TestDef) : List (List Char) :=
  t.decorators ++ defPatL t.name :: autoBlockLines t.body ++ [[]]

/-- The create path of `_assemble_test_file` (no existing content):
header lines, a blank line, the two imports, a blank line, then each
test's chunk. -/
def freshFile (tests : List TestDef) (headers : List (List Char)) : List (List Char) :=
  headers ++ ([] :: "import pytest".data :: "from ..client import client".data :: [] :: [])
    ++ tests.flatMap freshChunk

/-- Locate the start marker after a matched def line: zero or more
whitespace-only lines, then a line whose whitespace prefix is immediately
followed by the start marker.  Returns the gap lines, that prefix, the
text after the marker on its line, and the remaining lines. -/
def findStart : List (List Char) →
    Option (List (List Char) × List Char × List Char × List (List Char))
  | [] => none
  | l :: rest =>
    let w := l.takeWhile pyIsSpace
    if startMarkerL.isPrefixOf (l.drop w.length) then
      some ([], w, l.drop (w.length + startMarkerL.length), rest)
    else if wsOnly l then
      (findStart rest).map (fun q => (l :: q.1, q.2.1, q.2.2.1, q.2.2.2))
    else none

/-- Scan forward for the first line containing the end marker; returns
the text after the marker on that line and the lines after it. -/
def scanEnd : List (List Char) → Option (List Char × List (List Char))
  | [] => none
  | l :: rest =>
    match splitOnSub endMarkerL l with
    | some q => some (q.2, rest)
    | none => scanEnd rest

/-- The block-pattern match attempt after a def line: start marker
preceded by nothing but whitespace (at least one character of it), then
minimal consumption up to the end marker.  Returns
`(gap, pre, restK, remaining)`. -/
def matchBlock (rest : List (List Char)) :
    Option (List (List Char) × List Char × List Char × List (List Char)) :=
  match findStart rest with
  | some (gap, pre, restJ, rest2) =>
    if gap.isEmpty && pre.isEmpty then none
    else
      match splitOnSub endMarkerL restJ with
      | some q => some (gap, pre, q.2, rest2)
      | none =>
        match scanEnd rest2 with
        | some (afterE, remaining) => some (gap, pre, afterE, remaining)
        | none => none
  | none => none

theorem findStart_length {rest : List (List Char)}
    {q : List (List Char) × List Char × List Char × List (List Char)}
    (h : findStart rest = some q) : q.2.2.2.length < rest.length := by
  induction rest generalizing q with
  | nil => simp [findStart] at h
  | cons l rest ih =>
      rw [findStart] at h
      by_cases h1 : startMarkerL.isPrefixOf (l.drop (l.takeWhile pyIsSpace).length) = true
      · simp only [h1, if_true] at h
        cases h
        simp
      · simp only [h1, Bool.false_eq_true, if_false] at h
        by_cases h2 : wsOnly l = true
        · simp only [h2, if_true, Option.map_eq_some'] at h
          obtain ⟨q', hq', hq⟩ := h
          have := ih hq'
          subst hq
          simpa using Nat.lt_succ_of_lt this
        · simp [h2] at h

theorem scanEnd_length {ls : List (List Char)} {q : List Char × List (List Char)}
    (h : scanEnd ls = some q) : q.2.length < ls.length := by
  induction ls generalizing q with
  | nil => simp [scanEnd] at h
  | cons l rest ih =>
      rw [scanEnd] at h
      cases hs : splitOnSub endMarkerL l with
      | some p => rw [hs] at h; cases h; simp
      | none =>
          rw [hs] at h
          have := ih h
          simpa using Nat.lt_succ_of_lt this

theorem matchBlock_length {rest : List (List Char)}
    {q : List (List Char) × List Char × List Char × List (List Char)}
    (h : matchBlock rest = some q) : q.2.2.2.length < rest.length := by
  rw [matchBlock] at h
  cases hf : findStart rest with
  | none => rw [hf] at h; cases h
  | some p =>
      rw [hf] at h
      obtain ⟨gap, pre, restJ, rest2⟩ := p
      have hlen : rest2.length < rest.length := by simpa using findStart_length hf
      by_cases hge : gap.isEmpty && pre.isEmpty
      · simp [hge] at h
      · simp only [hge, Bool.false_eq_true, if_false] at h
        cases hsp : splitOnSub endMarkerL restJ with
        | some p2 => rw [hsp] at h; cases h; simpa using hlen
        | none =>
            rw [hsp] at h
            cases hse : scanEnd rest2 with
            | none => rw [hse] at h; cases h
            | some p3 =>
                rw [hse] at h
                cases h
                have := scanEnd_length hse
                simp only
                omega

/-- `re.sub(block_pattern, ...)`: every def-line occurrence followed by a
well-formed delimited block gets the block replaced by the freshly
indented body; scanning continues after the replaced block. -/
def replaceBlocks (df : List Char) (body : List (List Char)) :
    List (List Char) → List (List Char)
  | [] => []
  | l :: rest =>
    if containsSub df l then
      match hm : matchBlock rest with
      | some (gap, pre, restK, remaining) =>
          l :: gap ++ (pre ++ startMarkerL) :: body.map (indent4L ++ ·)
            ++ (indent4L ++ endMarkerL ++ restK) :: replaceBlocks df body remaining
      | none => l :: replaceBlocks df body rest
    else l :: replaceBlocks df body rest
termination_by ls => ls.length
decreasing_by
  · have h := matchBlock_length hm
    simp only [List.length_cons]
    exact Nat.lt_succ_of_lt h
  · simp
  · simp

/-- `re.sub(func_pattern, ...)` of the marker-less branch: the freshly
delimited region is inserted right after every def-line occurrence. -/
def insertBlocks (df : List Char) (body : List (List Char)) :
    List (List Char) → List (List Char)
  | [] => []
  | l :: rest =>
    if containsSub df l then l :: autoBlockLines body ++ insertBlocks df body rest
    else l :: insertBlocks df body rest

/-- `re.search(block_pattern, content)`: some def-line occurrence is
followed by a well-formed delimited block. -/
def existsDefBlock (df : List Char) : List (List Char) → Bool
  | [] => false
  | l :: rest => (containsSub df l && (matchBlock rest).isSome) || existsDefBlock df rest

/-- The per-test update step: replace the delimited block when one
exists, otherwise insert a block after the def line when the function
exists, otherwise append a new delimited function at end of file. -/
def updateOne (t : TestDef) (content : List (List Char)) : List (List Char) :=
  let df := defPatL t.name
  if existsDefBlock df content then replaceBlocks df t.body content
  else if content.any (fun l => containsSub df l) then insertBlocks df t.body content
  else content ++ [] :: t.decorators ++ defPatL t.name :: autoBlockLines t.body

/-- The update path of `_assemble_test_file`: strip recognized metadata
lines, prepend the fresh header, then fold the per-test update step. -/
def assembleUpdate (tests : List TestDef) (headers : List (List Char))
    (existing : List (List Char)) : List (List Char) :=
  tests.foldl (fun c t => updateOne t c)
    (headers ++ existing.filter (fun l => ! isMetadataLine l))

/-- `GenerationEngine._assemble_test_file`. -/
def assemble_test_file (tests : List TestDef) (headers : List (List Char)) :
    Option (List (List Char)) → List (List Char)
  | none => freshFile tests headers
  | some existing => assembleUpdate tests headers existing

theorem splitOnSub_sound {pat l a b : List Char}
    (h : splitOnSub pat l = some (a, b)) : l = a ++ pat ++ b ∧ b = l.drop (a.length + pat.length) := by
  induction l generalizing a b with
  | nil =>
      rw [splitOnSub] at h
      by_cases hp : pat.isPrefixOf ([] : List Char) = true
      · rw [List.isPrefixOf_iff_prefix] at hp
        have : pat = [] := List.prefix_nil.mp hp
        subst this
        simp [hp] at h ⊢
        obtain ⟨h1, h2⟩ := h
        subst h1; subst h2
        simp
      · simp [hp] at h
  | cons c t ih =>
      rw [splitOnSub] at h
      by_cases hp : pat.isPrefixOf (c :: t) = true
      · simp only [hp, if_true, Option.some.injEq, Prod.mk.injEq] at h
        obtain ⟨h1, h2⟩ := h
        subst h1; subst h2
        rw [List.isPrefixOf_iff_prefix] at hp
        obtain ⟨r, hr⟩ := hp
        constructor
        · rw [← hr, List.drop_left]
          simp
        · simp
      · simp only [hp, Bool.false_eq_true, if_false, Option.map_eq_some'] at h
        obtain ⟨⟨a', b'⟩, hq, heq⟩ := h
        obtain ⟨h1, h2⟩ := ih hq
        simp only [Prod.mk.injEq] at heq
        obtain ⟨ha, hb⟩ := heq
        subst ha; subst hb
        constructor
        · simp [← List.append_assoc, h1]
        · simp [h2, Nat.add_right_comm]

theorem containsSub_intro (pat a b : List Char) :
    containsSub pat (a ++ pat ++ b) = true := by
  induction a with
  | nil =>
      simp only [List.nil_append]
      rw [containsSub, splitOnSub.eq_def]
      cases hpb : pat ++ b with
      | nil =>
          have hp : pat = [] := by
            cases pat with
            | nil => rfl
            | cons c t => simp at hpb
          subst hp
          simp [List.isPrefixOf]
      | cons c t =>
          have hpre : pat.isPrefixOf (c :: t) = true := by
            rw [List.isPrefixOf_iff_prefix, ← hpb]
            exact List.prefix_append pat b
          simp [hpre]
  | cons c a ih =>
      rw [containsSub, splitOnSub.eq_def]
      simp only [List.cons_append]
      by_cases hp : pat <+: c :: (a ++ (pat ++ b))
      · simp [hp]
      · have hih := ih
        rw [containsSub] at hih
        rw [List.append_assoc] at hih
        simp [List.isPrefixOf_iff_prefix, hp, Option.isSome_map, hih]

theorem containsSub_iff (pat l : List Char) :
    containsSub pat l = true ↔ ∃ a b, l = a ++ pat ++ b := by
  constructor
  · intro h
    rw [containsSub, Option.isSome_iff_exists] at h
    obtain ⟨⟨a, b⟩, hq⟩ := h
    exact ⟨a, b, (splitOnSub_sound hq).1⟩
  · rintro ⟨a, b, rfl⟩
    exact containsSub_intro pat a b

theorem containsSub_refl (pat : List Char) : containsSub pat pat = true := by
  rw [containsSub_iff]
  exact ⟨[], [], by simp⟩

theorem containsSub_append_left {pat A : List Char} (B : List Char)
    (h : containsSub pat A = true) : containsSub pat (A ++ B) = true := by
  rw [containsSub_iff] at h ⊢
  obtain ⟨a, b, rfl⟩ := h
  exact ⟨a, b ++ B, by simp⟩

theorem containsSub_append_right {pat B : List Char} (A : List Char)
    (h : containsSub pat B = true) : containsSub pat (A ++ B) = true := by
  rw [containsSub_iff] at h ⊢
  obtain ⟨a, b, rfl⟩ := h
  exact ⟨A ++ a, b, by simp⟩

/-- If no character of `A` equals the pattern head, an occurrence of the
pattern in `A ++ B` lies entirely within `B`. -/
theorem containsSub_cons_append {c : Char} {p : List Char} (A B : List Char)
    (hA : ∀ x ∈ A, x ≠ c) : containsSub (c :: p) (A ++ B) = containsSub (c :: p) B := by
  by_cases hB : containsSub (c :: p) B = true
  · rw [hB]
    exact containsSub_append_right A hB
  · rw [Bool.not_eq_true] at hB
    rw [hB, Bool.eq_false_iff]
    intro hc
    rw [containsSub_iff] at hc
    obtain ⟨a, b, hab⟩ := hc
    rw [List.append_assoc] at hab
    rcases List.append_eq_append_iff.mp hab with ⟨a2, ha2, hB2⟩ | ⟨c2, hA2, hX2⟩
    · have : containsSub (c :: p) B = true := by
        rw [containsSub_iff]
        exact ⟨a2, b, by simpa [List.append_assoc] using hB2⟩
      rw [hB] at this
      exact Bool.false_ne_true this
    · cases c2 with
      | nil =>
          have : containsSub (c :: p) B = true := by
            rw [containsSub_iff]
            exact ⟨[], b, by simpa [List.append_assoc] using hX2.symm⟩
          rw [hB] at this
          exact Bool.false_ne_true this
      | cons x rest =>
          simp only [List.cons_append] at hX2
          have hxc : x = c := by
            injection hX2 with h1 h2
            exact h1.symm
          have hxA : x ∈ A := by
            rw [hA2]
            simp
          exact hA x hxA hxc

theorem containsSub_head_mem {c : Char} {p l : List Char}
    (h : containsSub (c :: p) l = true) : c ∈ l := by
  rw [containsSub_iff] at h
  obtain ⟨a, b, rfl⟩ := h
  simp

theorem containsSub_nil_pat_false {c : Char} {p : List Char} :
    containsSub (c :: p) [] = false := by
  rw [containsSub, splitOnSub]
  simp [List.isPrefixOf]

theorem splitOnSub_eq_none {pat l : List Char} (h : containsSub pat l = false) :
    splitOnSub pat l = none := by
  rw [containsSub] at h
  exact Option.not_isSome_iff_eq_none.mp (by simp [h])

theorem containsSub_eq_false_of_split {pat l : List Char}
    (h : splitOnSub pat l = none) : containsSub pat l = false := by
  rw [containsSub, h]
  rfl

/-- `defPatL` starts with the letter `d`. -/
theorem defPatL_eq (f : String) :
    defPatL f = 'd' :: ('e' :: 'f' :: ' ' :: (f.data ++ "():".data)) := rfl

theorem wsOnly_no_defPat {f : String} {l : List Char} (h : wsOnly l = true) :
    containsSub (defPatL f) l = false := by
  by_contra hc
  rw [Bool.not_eq_false, defPatL_eq] at hc
  have hd : 'd' ∈ l := containsSub_head_mem hc
  rw [wsOnly, List.all_eq_true] at h
  have := h 'd' hd
  simp [pyIsSpace] at this

theorem takeWhile_all_append {p : Char → Bool} {pre : List Char} (m : Char) (r : List Char)
    (hpre : ∀ x ∈ pre, p x = true) (hm : p m = false) :
    (pre ++ m :: r).takeWhile p = pre := by
  induction pre with
  | nil => simp [List.takeWhile, hm]
  | cons x xs ih =>
      have hx : p x = true := hpre x (by simp)
      have hxs : ∀ y ∈ xs, p y = true := fun y hy => hpre y (by simp [hy])
      simp [List.takeWhile, hx, ih hxs]

theorem isPrefixOf_append_self (pat r : List Char) : pat.isPrefixOf (pat ++ r) = true := by
  rw [List.isPrefixOf_iff_prefix]
  exact List.prefix_append pat r

/-- `findStart` walks over whitespace-only gap lines and stops at the
marker line, splitting it around the marker. -/
theorem findStart_eq (gap : List (List Char)) (pre restJ : List Char) (rest : List (List Char))
    (hgap : ∀ l ∈ gap, wsOnly l = true)
    (hpre : ∀ x ∈ pre, pyIsSpace x = true) :
    findStart (gap ++ ((pre ++ startMarkerL) ++ restJ) :: rest) = some (gap, pre, restJ, rest) := by
  induction gap with
  | nil =>
      rw [List.nil_append, findStart]
      have hline : (pre ++ startMarkerL) ++ restJ = pre ++ ('#' :: (" --- AUTO-GENERATED START ---".data ++ restJ)) := by
        simp [startMarkerL, List.append_assoc]
      have htw : ((pre ++ startMarkerL) ++ restJ).takeWhile pyIsSpace = pre := by
        rw [hline]
        exact takeWhile_all_append _ _ hpre (by decide)
      rw [htw]
      have hdrop : ((pre ++ startMarkerL) ++ restJ).drop pre.length = startMarkerL ++ restJ := by
        rw [List.append_assoc]
        exact List.drop_left pre (startMarkerL ++ restJ)
      rw [hdrop, isPrefixOf_append_self]
      simp only [if_true]
      have hdrop2 : ((pre ++ startMarkerL) ++ restJ).drop (pre.length + startMarkerL.length) = restJ := by
        have : pre.length + startMarkerL.length = (pre ++ startMarkerL).length := by
          simp
        rw [this]
        exact List.drop_left _ _
      rw [hdrop2]
  | cons g gs ih =>
      have hg : wsOnly g = true := hgap g (by simp)
      have hgs : ∀ l ∈ gs, wsOnly l = true := fun l hl => hgap l (by simp [hl])
      rw [List.cons_append, findStart]
      have htwg : g.takeWhile pyIsSpace = g := by
        rw [List.takeWhile_eq_self_iff]
        intro x hx
        exact (List.all_eq_true.mp hg) x hx
      rw [htwg, List.drop_length]
      have hnp : startMarkerL.isPrefixOf ([] : List Char) = false := by decide
      rw [hnp]
      simp only [Bool.false_eq_true, if_false, hg, if_true]
      rw [ih hgs]
      rfl

theorem scanEnd_skip {mid : List (List Char)} (ys : List (List Char))
    (hmid : ∀ l ∈ mid, splitOnSub endMarkerL l = none) :
    scanEnd (mid ++ ys) = scanEnd ys := by
  induction mid with
  | nil => simp
  | cons l ls ih =>
      have hl : splitOnSub endMarkerL l = none := hmid l (by simp)
      have hls : ∀ y ∈ ls, splitOnSub endMarkerL y = none := fun y hy => hmid y (by simp [hy])
      rw [List.cons_append, scanEnd, hl]
      exact ih hls

/-- The block-pattern match against a well-formed delimited region. -/
theorem matchBlock_eq (gap : List (List Char)) (pre restJ : List Char)
    (mid : List (List Char)) (e1 restK : List Char) (B : List (List Char))
    (hgap : ∀ l ∈ gap, wsOnly l = true)
    (hpre : ∀ x ∈ pre, pyIsSpace x = true)
    (hne : ¬ (gap = [] ∧ pre = []))
    (hJ : splitOnSub endMarkerL restJ = none)
    (hmid : ∀ l ∈ mid, splitOnSub endMarkerL l = none)
    (hend : splitOnSub endMarkerL ((e1 ++ endMarkerL) ++ restK) = some (e1, restK)) :
    matchBlock (gap ++ ((pre ++ startMarkerL) ++ restJ) :: (mid ++ ((e1 ++ endMarkerL) ++ restK) :: B))
      = some (gap, pre, restK, B) := by
  have hge : (gap.isEmpty && pre.isEmpty) = false := by
    cases gap with
    | cons g gs => simp
    | nil =>
        cases pre with
        | nil => exact absurd ⟨rfl, rfl⟩ hne
        | cons x xs => simp
  rw [matchBlock, findStart_eq gap pre restJ _ hgap hpre]
  simp only [hge, Bool.false_eq_true, if_false, hJ,
    scanEnd_skip (((e1 ++ endMarkerL) ++ restK) :: B) hmid, scanEnd, hend]

theorem replaceBlocks_nil (df : List Char) (body : List (List Char)) :
    replaceBlocks df body [] = [] := by
  rw [replaceBlocks]

theorem replaceBlocks_skip_cons (df : List Char) (body : List (List Char))
    (l : List Char) (rest : List (List Char)) (h : containsSub df l = false) :
    replaceBlocks df body (l :: rest) = l :: replaceBlocks df body rest := by
  rw [replaceBlocks]
  simp [h]

theorem replaceBlocks_id (df : List Char) (body : List (List Char))
    (C : List (List Char)) (h : ∀ l ∈ C, containsSub df l = false) :
    replaceBlocks df body C = C := by
  induction C with
  | nil => exact replaceBlocks_nil df body
  | cons l rest ih =>
      rw [replaceBlocks_skip_cons df body l rest (h l (by simp))]
      rw [ih (fun x hx => h x (by simp [hx]))]

theorem replaceBlocks_skip_append (df : List Char) (body : List (List Char))
    (A B : List (List Char)) (h : ∀ l ∈ A, containsSub df l = false) :
    replaceBlocks df body (A ++ B) = A ++ replaceBlocks df body B := by
  induction A with
  | nil => simp
  | cons l rest ih =>
      rw [List.cons_append, replaceBlocks_skip_cons df body l _ (h l (by simp))]
      rw [ih (fun x hx => h x (by simp [hx]))]
      rfl

theorem replaceBlocks_match_cons (df : List Char) (body : List (List Char))
    (defLine : List Char) (rest : List (List Char))
    (gap : List (List Char)) (pre restK : List Char) (remaining : List (List Char))
    (hdf : containsSub df defLine = true)
    (hm : matchBlock rest = some (gap, pre, restK, remaining)) :
    replaceBlocks df body (defLine :: rest)
      = defLine :: gap ++ (pre ++ startMarkerL) :: body.map (indent4L ++ ·)
          ++ (indent4L ++ endMarkerL ++ restK) :: replaceBlocks df body remaining := by
  rw [replaceBlocks]
  simp only [hdf, if_true]
  split
  next gap2 pre2 restK2 rem2 heq =>
    rw [hm] at heq
    injection heq with h1
    injection h1 with hg h2
    injection h2 with hp h3
    injection h3 with hk hr
    subst hg; subst hp; subst hk; subst hr
    rfl
  next heq =>
    rw [hm] at heq
    cases heq

theorem existsDefBlock_cons_of (df defLine : List Char) (rest : List (List Char))
    (hdf : containsSub df defLine = true) (hm : (matchBlock rest).isSome = true) :
    existsDefBlock df (defLine :: rest) = true := by
  rw [existsDefBlock]
  simp [hdf, hm]

theorem existsDefBlock_append_of (df : List Char) (A : List (List Char))
    {B : List (List Char)} (h : existsDefBlock df B = true) :
    existsDefBlock df (A ++ B) = true := by
  induction A with
  | nil => simpa using h
  | cons l rest ih =>
      rw [List.cons_append, existsDefBlock]
      simp [ih]

/-- The shape of an existing (metadata-stripped) file relative to a test
list, together with the result of patching each test's delimited region
in order: user segments `U`, the def line, the whitespace gap, the text
around the markers and everything after the last region are preserved
verbatim; only the region interiors are replaced. -/
def PatchShape (names : List String) : List TestDef → List (List Char) → List (List Char) → Prop
  | [], E, O => O = E ∧ ∀ f ∈ names, ∀ l ∈ E, containsSub (defPatL f) l = false
  | t :: ts, E, O => ∃ U defLine gap pre restJ mid e1 restK E2 O2,
      E = U ++ defLine :: (gap ++ ((pre ++ startMarkerL) ++ restJ) :: (mid
            ++ ((e1 ++ endMarkerL) ++ restK) :: E2))
      ∧ O = U ++ defLine :: (gap ++ (pre ++ startMarkerL) :: (t.body.map (indent4L ++ ·)
            ++ (indent4L ++ endMarkerL ++ restK) :: O2))
      ∧ (∀ f ∈ names, ∀ l ∈ U, containsSub (defPatL f) l = false)
      ∧ containsSub (defPatL t.name) defLine = true
      ∧ (∀ f ∈ names, f ≠ t.name → containsSub (defPatL f) defLine = false)
      ∧ (∀ l ∈ gap, wsOnly l = true)
      ∧ (∀ x ∈ pre, pyIsSpace x = true)
      ∧ ¬ (gap = [] ∧ pre = [])
      ∧ splitOnSub endMarkerL restJ = none
      ∧ (∀ f ∈ names, containsSub (defPatL f) ((pre ++ startMarkerL) ++ restJ) = false)
      ∧ (∀ l ∈ mid, splitOnSub endMarkerL l = none)
      ∧ (∀ l ∈ mid, ∀ f ∈ names, containsSub (defPatL f) l = false)
      ∧ splitOnSub endMarkerL ((e1 ++ endMarkerL) ++ restK) = some (e1, restK)
      ∧ (∀ f ∈ names, containsSub (defPatL f) ((e1 ++ endMarkerL) ++ restK) = false)
      ∧ PatchShape names ts E2 O2

/-- Every line of a shaped file is free of the def pattern of any name
that is not among the remaining tests' names. -/
theorem PatchShape_no_df {names : List String} {ts : List TestDef}
    {E O : List (List Char)} (hshape : PatchShape names ts E O)
    {f : String} (hf : f ∈ names) (hnot : f ∉ ts.map TestDef.name) :
    ∀ l ∈ E, containsSub (defPatL f) l = false := by
  induction ts generalizing E O with
  | nil =>
      obtain ⟨_, hfree⟩ := hshape
      exact fun l hl => hfree f hf l hl
  | cons t ts ih =>
      obtain ⟨U, defLine, gap, pre, restJ, mid, e1, restK, E2, O2,
        hE, _, hU, _, hdfo, hgap, _, _, _, hstart, _, hmiddf, _, hendf, hrest⟩ := hshape
      have hfne : f ≠ t.name := by
        intro hfe
        exact hnot (by simp [hfe])
      have hnot2 : f ∉ ts.map TestDef.name := by
        intro hmem
        exact hnot (by simp [hmem])
      intro l hl
      rw [hE] at hl
      rcases List.mem_append.mp hl with hl | hl
      · exact hU f hf l hl
      rcases List.mem_cons.mp hl with rfl | hl
      · exact hdfo f hf hfne
      rcases List.mem_append.mp hl with hl | hl
      · exact wsOnly_no_defPat (hgap l hl)
      rcases List.mem_cons.mp hl with rfl | hl
      · exact hstart f hf
      rcases List.mem_append.mp hl with hl | hl
      · exact hmiddf l hl f hf
      rcases List.mem_cons.mp hl with rfl | hl
      · exact hendf f hf
      · exact ih hrest hnot2 l hl

theorem indent_no_defPat {f : String} {l : List Char}
    (h : containsSub (defPatL f) l = false) :
    containsSub (defPatL f) (indent4L ++ l) = false := by
  rw [defPatL_eq] at h ⊢
  rw [containsSub_cons_append indent4L l (by decide)]
  exact h

/-- Folding the per-test update step over a shaped file patches exactly
the delimited regions. -/
theorem assembleFold_patch (names : List String) (tests : List TestDef)
    (H E O : List (List Char))
    (hsub : ∀ t ∈ tests, t.name ∈ names)
    (hnd : (tests.map TestDef.name).Nodup)
    (hbodies : ∀ t ∈ tests, ∀ l ∈ t.body, ∀ f ∈ names, containsSub (defPatL f) l = false)
    (hH : ∀ l ∈ H, ∀ t ∈ tests, containsSub (defPatL t.name) l = false)
    (hshape : PatchShape names tests E O) :
    tests.foldl (fun c t => updateOne t c) (H ++ E) = H ++ O := by
  induction tests generalizing H E O with
  | nil =>
      obtain ⟨hOE, _⟩ := hshape
      simp [hOE]
  | cons t ts ih =>
      obtain ⟨U, defLine, gap, pre, restJ, mid, e1, restK, E2, O2,
        hE, hO, hU, hdf, hdfo, hgap, hpre, hne, hJ, hstart, hmid, hmiddf, hend, hendf, hrest⟩ :=
        hshape
      have htn : t.name ∈ names := hsub t (by simp)
      have hnotail : t.name ∉ ts.map TestDef.name := by
        simpa using (List.nodup_cons.mp hnd).1
      have hmb : matchBlock (gap ++ ((pre ++ startMarkerL) ++ restJ) :: (mid
          ++ ((e1 ++ endMarkerL) ++ restK) :: E2)) = some (gap, pre, restK, E2) :=
        matchBlock_eq gap pre restJ mid e1 restK E2 hgap hpre hne hJ hmid hend
      have hEalt : H ++ E = (H ++ U) ++ defLine :: (gap ++ ((pre ++ startMarkerL) ++ restJ)
          :: (mid ++ ((e1 ++ endMarkerL) ++ restK) :: E2)) := by
        rw [hE]
        simp [List.append_assoc]
      have hHU : ∀ l ∈ H ++ U, containsSub (defPatL t.name) l = false := by
        intro l hl
        rcases List.mem_append.mp hl with hl | hl
        · exact hH l hl t (by simp)
        · exact hU t.name htn l hl
      have hex : existsDefBlock (defPatL t.name) (H ++ E) = true := by
        rw [hEalt]
        exact existsDefBlock_append_of _ (H ++ U)
          (existsDefBlock_cons_of _ _ _ hdf (by rw [hmb]; rfl))
      have hE2free : ∀ l ∈ E2, containsSub (defPatL t.name) l = false :=
        PatchShape_no_df hrest htn hnotail
      have hstep : updateOne t (H ++ E) = (H ++ U) ++ defLine :: (gap
          ++ (pre ++ startMarkerL) :: (t.body.map (indent4L ++ ·)
          ++ (indent4L ++ endMarkerL ++ restK) :: E2)) := by
        rw [updateOne]
        simp only [hex, if_true]
        rw [hEalt, replaceBlocks_skip_append _ _ _ _ hHU]
        rw [replaceBlocks_match_cons _ _ _ _ _ _ _ _ hdf hmb]
        rw [replaceBlocks_id _ _ E2 hE2free]
        simp [List.append_assoc]
      have hH2 : ∀ l ∈ (H ++ U) ++ defLine :: (gap ++ (pre ++ startMarkerL)
          :: (t.body.map (indent4L ++ ·) ++ [indent4L ++ endMarkerL ++ restK])),
          ∀ t' ∈ ts, containsSub (defPatL t'.name) l = false := by
        intro l hl t' ht'
        have htn' : t'.name ∈ names := hsub t' (by simp [ht'])
        have hne' : t'.name ≠ t.name := by
          intro hq
          exact hnotail (hq ▸ List.mem_map_of_mem TestDef.name ht')
        rcases List.mem_append.mp hl with hl | hl
        · rcases List.mem_append.mp hl with hl | hl
          · exact hH l hl t' (by simp [ht'])
          · exact hU t'.name htn' l hl
        rcases List.mem_cons.mp hl with rfl | hl
        · exact hdfo t'.name htn' hne'
        rcases List.mem_append.mp hl with hl | hl
        · exact wsOnly_no_defPat (hgap l hl)
        rcases List.mem_cons.mp hl with rfl | hl
        · by_contra hcc
          rw [Bool.not_eq_false] at hcc
          have h1 := containsSub_append_left restJ hcc
          rw [hstart t'.name htn'] at h1
          exact Bool.false_ne_true h1
        rcases List.mem_append.mp hl with hl | hl
        · obtain ⟨lb, hlb, rfl⟩ := List.mem_map.mp hl
          exact indent_no_defPat (hbodies t (by simp) lb hlb t'.name htn')
        · rcases List.mem_cons.mp hl with rfl | hl
          · rw [defPatL_eq]
            rw [show indent4L ++ endMarkerL ++ restK = (indent4L ++ endMarkerL) ++ restK by
              simp [List.append_assoc]]
            rw [containsSub_cons_append (indent4L ++ endMarkerL) restK (by decide)]
            rw [← defPatL_eq]
            by_contra hcc
            rw [Bool.not_eq_false] at hcc
            have := containsSub_append_right (e1 ++ endMarkerL) hcc
            rw [hendf t'.name htn'] at this
            exact Bool.false_ne_true this
          · cases hl
      have hchain := ih _ E2 O2 (fun t' ht' => hsub t' (by simp [ht']))
        (List.nodup_cons.mp hnd).2
        (fun t' ht' l hlb f hf => hbodies t' (by simp [ht']) l hlb f hf)
        hH2 hrest
      rw [List.foldl_cons, hstep]
      have hassoc : (H ++ U) ++ defLine :: (gap ++ (pre ++ startMarkerL)
          :: (t.body.map (indent4L ++ ·) ++ (indent4L ++ endMarkerL ++ restK) :: E2))
          = ((H ++ U) ++ defLine :: (gap ++ (pre ++ startMarkerL)
            :: (t.body.map (indent4L ++ ·) ++ [indent4L ++ endMarkerL ++ restK]))) ++ E2 := by
        simp [List.append_assoc]
      rw [hassoc, hchain, hO]
      simp [List.append_assoc]

/-- C5: for every existing file content, header list and test list whose
functions appear with well-delimited regions, the materializer rewrites
only the delimited region interiors: every other line of the
metadata-stripped existing content — user segments before, between and
after the generated functions, the def lines, the whitespace around the
markers and any trailing user code — appears verbatim and in place in
the output after the fresh header lines, while each delimited region
holds exactly the new body. -/
theorem materialization_preserves_user_code
    (tests : List TestDef) (headers existing O : List (List Char))
    (hnd : (tests.map TestDef.name).Nodup)
    (hbodies : ∀ t ∈ tests, ∀ l ∈ t.body, ∀ t2 ∈ tests,
      containsSub (defPatL t2.name) l = false)
    (hheaders : ∀ l ∈ headers, ∀ t ∈ tests, containsSub (defPatL t.name) l = false)
    (hshape : PatchShape (tests.map TestDef.name) tests
        (existing.filter (fun l => ! isMetadataLine l)) O) :
    assemble_test_file tests headers (some existing) = headers ++ O := by
  rw [assemble_test_file, assembleUpdate]
  refine assembleFold_patch (tests.map TestDef.name) tests headers _ O
    (fun t ht => List.mem_map_of_mem TestDef.name ht) hnd ?_ hheaders hshape
  intro t ht l hl f hf
  obtain ⟨t2, ht2, hft⟩ := List.mem_map.mp hf
  rw [← hft]
  exact hbodies t ht l hl t2 ht2

def c5Test : TestDef :=
  ⟨"test_get_users", ["assert resp.status_code == 200".data], []⟩

def c5Hdr : List Char := "# endpoint_id: GET /users".data

def c5U : List (List Char) :=
  ["import pytest".data, [], "def helper():".data, "    return 1".data, []]

def c5Tail : List (List Char) := [[], "# trailing user comment".data]

def c5Existing : List (List Char) :=
  c5Hdr :: c5U ++ "def test_get_users():".data ::
    "    # --- AUTO-GENERATED START ---".data ::
    "    old_line = 0".data ::
    "    # --- AUTO-GENERATED END ---".data :: c5Tail

def c5Out : List (List Char) :=
  c5U ++ "def test_get_users():".data ::
    "    # --- AUTO-GENERATED START ---".data ::
    "    assert resp.status_code == 200".data ::
    "    # --- AUTO-GENERATED END ---".data :: c5Tail

theorem materialization_preserves_user_code_witness :
    assemble_test_file [c5Test] [c5Hdr] (some c5Existing) = [c5Hdr] ++ c5Out :=
  materialization_preserves_user_code [c5Test] [c5Hdr] c5Existing c5Out
    (by decide) (by decide) (by decide)
    ⟨c5U, "def test_get_users():".data, [], "    ".data, [], ["    old_line = 0".data],
      "    ".data, [], c5Tail, c5Tail,
      by decide, by decide, by decide, by decide, by decide, by decide, by decide,
      by decide, by decide, by decide, by decide, by decide, by decide, by decide,
      rfl, by decide⟩

theorem isPrefixOf_cons_false {a c : Char} {p l : List Char} (h : a ≠ c) :
    (a :: p).isPrefixOf (c :: l) = false := by
  rw [Bool.eq_false_iff]
  intro hc
  rw [List.isPrefixOf_iff_prefix, List.cons_prefix_cons] at hc
  exact h hc.1

theorem isMetadataLine_cons_false {c : Char} {l : List Char} (h : c ≠ '#') :
    isMetadataLine (c :: l) = false := by
  have hn : '#' ≠ c := fun he => h he.symm
  have h1 : ("# endpoint_id:".data).isPrefixOf (c :: l) = false :=
    isPrefixOf_cons_false hn
  have h2 : ("# last_generated:".data).isPrefixOf (c :: l) = false :=
    isPrefixOf_cons_false hn
  have h3 : ("# request_schema_hash:".data).isPrefixOf (c :: l) = false :=
    isPrefixOf_cons_false hn
  have h4 : ("# response_schema_hash_".data).isPrefixOf (c :: l) = false :=
    isPrefixOf_cons_false hn
  rw [isMetadataLine, isRespHashLine, h1, h2, h3, h4]
  rfl

theorem isMetadataLine_defPat (f : String) : isMetadataLine (defPatL f) = false := by
  rw [defPatL_eq]
  exact isMetadataLine_cons_false (by decide)

theorem isMetadataLine_indent (l : List Char) :
    isMetadataLine (indent4L ++ l) = false :=
  isMetadataLine_cons_false (by decide)

/-- The metadata filter removes exactly the header lines of a freshly
generated file. -/
theorem freshFile_filter (tests : List TestDef) (headers : List (List Char))
    (hh : ∀ l ∈ headers, isMetadataLine l = true)
    (hdec : ∀ t ∈ tests, ∀ l ∈ t.decorators, isMetadataLine l = false) :
    (freshFile tests headers).filter (fun l => ! isMetadataLine l)
      = ([] :: "import pytest".data :: "from ..client import client".data :: [] :: [])
        ++ tests.flatMap freshChunk := by
  rw [freshFile, List.append_assoc, List.filter_append]
  have h1 : headers.filter (fun l => ! isMetadataLine l) = [] := by
    rw [List.filter_eq_nil_iff]
    intro l hl
    simp [hh l hl]
  rw [h1, List.nil_append, List.filter_eq_self.mpr]
  intro l hl
  rcases List.mem_append.mp hl with hl | hl
  · fin_cases hl <;> decide
  · rw [List.mem_flatMap] at hl
    obtain ⟨t, ht, hl⟩ := hl
    rw [freshChunk] at hl
    rcases List.mem_append.mp hl with hl | hl
    · rcases List.mem_append.mp hl with hl | hl
      · simp [hdec t ht l hl]
      · rcases List.mem_cons.mp hl with rfl | hl
        · simp [isMetadataLine_defPat]
        · rw [autoBlockLines] at hl
          rcases List.mem_append.mp hl with hl | hl
          · rcases List.mem_cons.mp hl with rfl | hl
            · simp [isMetadataLine_indent]
            · obtain ⟨lb, _, rfl⟩ := List.mem_map.mp hl
              simp [isMetadataLine_indent]
          · rcases List.mem_cons.mp hl with rfl | hl
            · simp [isMetadataLine_indent]
            · cases hl
    · rcases List.mem_cons.mp hl with rfl | hl
      · decide
      · cases hl

theorem endMarkerL_eq : endMarkerL = '#' :: " --- AUTO-GENERATED END ---".data := rfl

theorem indent_no_endMarker {l : List Char} (h : splitOnSub endMarkerL l = none) :
    splitOnSub endMarkerL (indent4L ++ l) = none := by
  apply splitOnSub_eq_none
  rw [endMarkerL_eq, containsSub_cons_append indent4L l (by decide), ← endMarkerL_eq]
  exact containsSub_eq_false_of_split h

/-- A freshly generated core (imports and chunks) is a fixed point of the
patch relation: each test's region already holds exactly its body. -/
theorem fresh_PatchShape (names : List String) (tests : List TestDef)
    (hdf : ∀ t ∈ tests, ∀ f ∈ names, f ≠ t.name →
      containsSub (defPatL f) (defPatL t.name) = false)
    (hbody : ∀ t ∈ tests, ∀ l ∈ t.body,
      (∀ f ∈ names, containsSub (defPatL f) l = false) ∧ splitOnSub endMarkerL l = none)
    (hdec : ∀ t ∈ tests, ∀ l ∈ t.decorators, ∀ f ∈ names,
      containsSub (defPatL f) l = false) :
    ∀ (ts : List TestDef), (∀ t ∈ ts, t ∈ tests) → (∀ t ∈ ts, t.name ∈ names) →
    ∀ (U0 : List (List Char)), (∀ f ∈ names, ∀ l ∈ U0, containsSub (defPatL f) l = false) →
    PatchShape names ts (U0 ++ ts.flatMap freshChunk) (U0 ++ ts.flatMap freshChunk) := by
  intro ts
  induction ts with
  | nil =>
      intro _ _ U0 hU0
      exact ⟨rfl, fun f hf l hl => hU0 f hf l (by simpa using hl)⟩
  | cons t ts ih =>
      intro hmem hnm U0 hU0
      have htm : t ∈ tests := hmem t (by simp)
      refine ⟨U0 ++ t.decorators, defPatL t.name, [], indent4L, [],
        t.body.map (indent4L ++ ·), indent4L, [],
        [] :: ts.flatMap freshChunk, [] :: ts.flatMap freshChunk,
        ?_, ?_, ?_, ?_, ?_, ?_, ?_, ?_, ?_, ?_, ?_, ?_, ?_, ?_, ?_⟩
      · simp [freshChunk, autoBlockLines, List.append_assoc]
      · simp [freshChunk, autoBlockLines, List.append_assoc]
      · intro f hf l hl
        rcases List.mem_append.mp hl with hl | hl
        · exact hU0 f hf l hl
        · exact hdec t htm l hl f hf
      · exact containsSub_refl _
      · intro f hf hfne
        exact hdf t htm f hf hfne
      · intro l hl
        cases hl
      · decide
      · decide
      · decide
      · intro f hf
        rw [defPatL_eq, containsSub_cons_append (indent4L ++ startMarkerL) [] (by decide)]
        exact containsSub_nil_pat_false
      · intro l hl
        obtain ⟨lb, hlb, rfl⟩ := List.mem_map.mp hl
        exact indent_no_endMarker (hbody t htm lb hlb).2
      · intro l hl f hf
        obtain ⟨lb, hlb, rfl⟩ := List.mem_map.mp hl
        exact indent_no_defPat ((hbody t htm lb hlb).1 f hf)
      · decide
      · intro f hf
        rw [defPatL_eq, containsSub_cons_append (indent4L ++ endMarkerL) [] (by decide)]
        exact containsSub_nil_pat_false
      · have hstep := ih (fun t2 ht2 => hmem t2 (by simp [ht2]))
          (fun t2 ht2 => hnm t2 (by simp [ht2])) [[]]
          (fun f hf l hl => by
            rcases List.mem_cons.mp hl with rfl | hl
            · rw [defPatL_eq]
              exact containsSub_nil_pat_false
            · cases hl)
        simpa using hstep

theorem containsSub_pat_left {p q l : List Char}
    (h : containsSub (p ++ q) l = true) : containsSub p l = true := by
  rw [containsSub_iff] at h ⊢
  obtain ⟨a, b, rfl⟩ := h
  exact ⟨a, q ++ b, by simp [List.append_assoc]⟩

theorem no_defPat_of_no_def {f : String} {l : List Char}
    (hl : containsSub ("def ".data) l = false) :
    containsSub (defPatL f) l = false := by
  by_contra hc
  rw [Bool.not_eq_false] at hc
  have hp : defPatL f = "def ".data ++ (f.data ++ "():".data) := by
    rw [defPatL, List.append_assoc]
  rw [hp] at hc
  rw [containsSub_pat_left hc] at hl
  exact Bool.true_eq_false.mp hl

theorem startMarkerL_eq : startMarkerL = '#' :: " --- AUTO-GENERATED START ---".data := rfl

/-- Each fresh chunk contributes its marker lines and nothing else to a
marker count. -/
theorem freshChunk_countP (m : List Char) (t : TestDef)
    (hdec : ∀ l ∈ t.decorators, containsSub m l = false)
    (hdf : containsSub m (defPatL t.name) = false)
    (hbody : ∀ l ∈ t.body, containsSub m (indent4L ++ l) = false)
    (hm0 : containsSub m [] = false) :
    (freshChunk t).countP (fun l => containsSub m l)
      = (if containsSub m (indent4L ++ startMarkerL) then 1 else 0)
        + (if containsSub m (indent4L ++ endMarkerL) then 1 else 0) := by
  have h1 : t.decorators.countP (fun l => containsSub m l) = 0 :=
    List.countP_eq_zero.mpr (fun l hl => by simp [hdec l hl])
  have h2 : (t.body.map (indent4L ++ ·)).countP (fun l => containsSub m l) = 0 :=
    List.countP_eq_zero.mpr (fun l hl => by
      obtain ⟨lb, hlb, rfl⟩ := List.mem_map.mp hl
      simp [hbody lb hlb])
  rw [freshChunk, autoBlockLines]
  rw [List.countP_append, List.countP_append, List.countP_cons, List.countP_append,
    List.countP_cons, List.countP_cons, List.countP_cons]
  rw [h1, h2]
  simp only [List.countP_nil, hdf, hm0]
  by_cases hs : containsSub m (indent4L ++ startMarkerL) = true
  · by_cases he : containsSub m (indent4L ++ endMarkerL) = true
    · simp [hs, he]
    · simp [hs, eq_false_of_ne_true he]
  · by_cases he : containsSub m (indent4L ++ endMarkerL) = true
    · simp [eq_false_of_ne_true hs, he]
    · simp [eq_false_of_ne_true hs, eq_false_of_ne_true he]

/-- Marker count of a freshly generated file. -/
theorem freshFile_countP (m : List Char) (tests : List TestDef)
    (headers : List (List Char))
    (hh : ∀ l ∈ headers, containsSub m l = false)
    (hm0 : containsSub m [] = false)
    (hi1 : containsSub m ("import pytest".data) = false)
    (hi2 : containsSub m ("from ..client import client".data) = false)
    (hch : ∀ t ∈ tests, (freshChunk t).countP (fun l => containsSub m l) = 1) :
    (freshFile tests headers).countP (fun l => containsSub m l) = tests.length := by
  rw [freshFile, List.countP_append, List.countP_append]
  have h1 : headers.countP (fun l => containsSub m l) = 0 :=
    List.countP_eq_zero.mpr (fun l hl => by simp [hh l hl])
  have h2 : ([] :: "import pytest".data :: "from ..client import client".data
      :: [] :: []).countP (fun l => containsSub m l) = 0 := by
    simp [List.countP_cons, hm0, hi1, hi2]
  have h3 : ∀ ts : List TestDef, (∀ t ∈ ts, t ∈ tests) →
      (ts.flatMap freshChunk).countP (fun l => containsSub m l) = ts.length := by
    intro ts
    induction ts with
    | nil => simp
    | cons t2 ts2 ih =>
        intro hmem
        rw [List.flatMap_cons, List.countP_append, hch t2 (hmem t2 (by simp)),
          ih (fun x hx => hmem x (by simp [hx]))]
        simp [Nat.add_comm]
  rw [h1, h2, h3 tests (fun _ h => h)]
  omega

/-- C4: rerunning `_assemble_test_file` with identical tests and a fresh
header block on its own earlier output reproduces exactly the fresh file
built with the new headers — every line outside the header block is
byte-identical — and the output carries exactly one AUTO-GENERATED start
marker and one end marker per test, so marker pairs are never
duplicated. -/
theorem materialization_idempotent (tests : List TestDef)
    (headers1 headers2 : List (List Char))
    (hh1 : ∀ l ∈ headers1, isMetadataLine l = true)
    (hnd : (tests.map TestDef.name).Nodup)
    (hdist : ∀ t ∈ tests, ∀ t2 ∈ tests, t2.name ≠ t.name →
      containsSub (defPatL t2.name) (defPatL t.name) = false)
    (hbody : ∀ t ∈ tests, ∀ l ∈ t.body,
      (∀ t2 ∈ tests, containsSub (defPatL t2.name) l = false)
      ∧ splitOnSub endMarkerL l = none ∧ containsSub startMarkerL l = false)
    (hdec : ∀ t ∈ tests, ∀ l ∈ t.decorators,
      isMetadataLine l = false
      ∧ (∀ t2 ∈ tests, containsSub (defPatL t2.name) l = false)
      ∧ containsSub startMarkerL l = false ∧ containsSub endMarkerL l = false)
    (hh2 : ∀ l ∈ headers2,
      (∀ t ∈ tests, containsSub (defPatL t.name) l = false)
      ∧ containsSub startMarkerL l = false ∧ containsSub endMarkerL l = false)
    (hdefm : ∀ t ∈ tests, containsSub startMarkerL (defPatL t.name) = false
      ∧ containsSub endMarkerL (defPatL t.name) = false) :
    assemble_test_file tests headers2 (some (assemble_test_file tests headers1 none))
        = assemble_test_file tests headers2 none
    ∧ (assemble_test_file tests headers2 none).countP
        (fun l => containsSub startMarkerL l) = tests.length
    ∧ (assemble_test_file tests headers2 none).countP
        (fun l => containsSub endMarkerL l) = tests.length := by
  have hnameiff : ∀ f ∈ tests.map TestDef.name, ∃ t2 ∈ tests, t2.name = f :=
    fun f hf => List.mem_map.mp hf
  refine ⟨?_, ?_, ?_⟩
  · show assembleUpdate tests headers2 (freshFile tests headers1) = _
    rw [assembleUpdate,
      freshFile_filter tests headers1 hh1 (fun t ht l hl => (hdec t ht l hl).1)]
    have hfold := assembleFold_patch (tests.map TestDef.name) tests headers2
      (([] :: "import pytest".data :: "from ..client import client".data :: [] :: [])
        ++ tests.flatMap freshChunk)
      (([] :: "import pytest".data :: "from ..client import client".data :: [] :: [])
        ++ tests.flatMap freshChunk)
      (fun t ht => List.mem_map_of_mem TestDef.name ht) hnd
      (fun t ht l hl f hf => by
        obtain ⟨t2, ht2, rfl⟩ := hnameiff f hf
        exact (hbody t ht l hl).1 t2 ht2)
      (fun l hl t ht => (hh2 l hl).1 t ht)
      (fresh_PatchShape (tests.map TestDef.name) tests
        (fun t ht f hf hfne => by
          obtain ⟨t2, ht2, rfl⟩ := hnameiff f hf
          exact hdist t ht t2 ht2 hfne)
        (fun t ht l hl => ⟨fun f hf => by
          obtain ⟨t2, ht2, rfl⟩ := hnameiff f hf
          exact (hbody t ht l hl).1 t2 ht2, (hbody t ht l hl).2.1⟩)
        (fun t ht l hl f hf => by
          obtain ⟨t2, ht2, rfl⟩ := hnameiff f hf
          exact (hdec t ht l hl).2.1 t2 ht2)
        tests (fun _ h => h) (fun t ht => List.mem_map_of_mem TestDef.name ht)
        ([] :: "import pytest".data :: "from ..client import client".data :: [] :: [])
        (fun f hf l hl => by
          obtain ⟨t2, ht2, rfl⟩ := hnameiff f hf
          fin_cases hl <;> exact no_defPat_of_no_def (by decide)))
    rw [hfold]
    show _ = freshFile tests headers2
    rw [freshFile]
    simp [List.append_assoc]
  · show (freshFile tests headers2).countP _ = _
    refine freshFile_countP startMarkerL tests headers2
      (fun l hl => (hh2 l hl).2.1) (by decide) (by decide) (by decide) ?_
    intro t ht
    rw [freshChunk_countP startMarkerL t
      (fun l hl => (hdec t ht l hl).2.2.1) (hdefm t ht).1
      (fun l hl => by
        rw [startMarkerL_eq, containsSub_cons_append indent4L l (by decide),
          ← startMarkerL_eq]
        exact (hbody t ht l hl).2.2) (by decide)]
    decide
  · show (freshFile tests headers2).countP _ = _
    refine freshFile_countP endMarkerL tests headers2
      (fun l hl => (hh2 l hl).2.2) (by decide) (by decide) (by decide) ?_
    intro t ht
    rw [freshChunk_countP endMarkerL t
      (fun l hl => (hdec t ht l hl).2.2.2) (hdefm t ht).2
      (fun l hl => by
        rw [endMarkerL_eq, containsSub_cons_append indent4L l (by decide),
          ← endMarkerL_eq]
        exact containsSub_eq_false_of_split (hbody t ht l hl).2.1) (by decide)]
    decide

def c4T1 : TestDef :=
  ⟨"test_get_users",
   ["resp = client.get(\x22/users\x22)".data, "assert resp.status_code == 200".data],
   []⟩

def c4T2 : TestDef :=
  ⟨"test_post_users",
   ["resp = client.post(\x22/users\x22)".data],
   ["@pytest.mark.negative".data]⟩

def c4Tests : List TestDef := [c4T1, c4T2]

def c4H1 : List (List Char) :=
  ["# endpoint_id: GET /users".data,
   "# last_generated: 2024-01-01T00:00:00".data,
   "# request_schema_hash: abc123".data]

def c4H2 : List (List Char) :=
  ["# endpoint_id: GET /users".data,
   "# last_generated: 2025-06-30T12:34:56".data,
   "# request_schema_hash: abc123".data]

theorem materialization_idempotent_witness :
    assemble_test_file c4Tests c4H2 (some (assemble_test_file c4Tests c4H1 none))
        = assemble_test_file c4Tests c4H2 none
    ∧ (assemble_test_file c4Tests c4H2 none).countP
        (fun l => containsSub startMarkerL l) = c4Tests.length
    ∧ (assemble_test_file c4Tests c4H2 none).countP
        (fun l => containsSub endMarkerL l) = c4Tests.length :=
  materialization_idempotent c4Tests c4H1 c4H2 (by decide) (by decide) (by decide)
    (by decide) (by decide) (by decide) (by decide)

/-!
The negative-test path of `GenerationEngine` (`generator/engine.py`):
`_get_safe_filename`, `_get_formatted_path`, `_generate_headers`, the
error-assertion generator, and `_generate_negative_test_file` itself.
Environment inputs stay parameters: `ts` is `datetime.now(...).isoformat()`,
`pickEnum` the random enum draw, `existing` the optional prior file
content, and `fuel` bounds the recursion of the Python functions (whose
`RecursionError` is caught by `generate_error_assertions`' bare except).
Python `str`/`repr` formatting of payload values is modeled by `pyRepr`
over the quote repertoire the generator can produce.
-/

def charLower (c : Char) : Char :=
  if 'A' ≤ c ∧ c ≤ 'Z' then Char.ofNat (c.toNat + 32) else c

def pyLower (s : String) : String := String.mk (s.data.map charLower)

def isAlnumAscii (c : Char) : Bool :=
  ('a' ≤ c ∧ c ≤ 'z') ∨ ('A' ≤ c ∧ c ≤ 'Z') ∨ ('0' ≤ c ∧ c ≤ '9')

/-- Python `str.strip(ch)`: remove the character from both ends. -/
def pyStripChar (ch : Char) (l : List Char) : List Char :=
  ((l.dropWhile (· = ch)).reverse.dropWhile (· = ch)).reverse

/-- `GenerationEngine._get_safe_filename`. -/
def get_safe_filename (e : Endpoint) : String :=
  pyLower e.method ++ "_"
    ++ String.mk (pyStripChar '_' (e.path.data.map (fun c => if isAlnumAscii c then c else '_')))
    ++ ".py"

/-- Python `str.replace`: replace every (left-to-right, non-overlapping)
occurrence of `pat` by `repl`. -/
def replaceSubGo (pat repl : List Char) : Nat → List Char → List Char
  | 0, l => l
  | fuel + 1, l =>
    match splitOnSub pat l with
    | some q => q.1 ++ repl ++ replaceSubGo pat repl fuel q.2
    | none => l

def replaceSub (pat repl l : List Char) : List Char :=
  replaceSubGo pat repl (l.length + 1) l

/-- Python `repr` of a string over the generator's character repertoire:
double quotes when the text holds a single quote but no double quote,
single quotes (escaping any contained single quote) otherwise. -/
def pyReprStr (s : String) : String :=
  if s.data.contains '\x27' && ! s.data.contains '\x22' then
    "\x22" ++ s ++ "\x22"
  else
    "\x27" ++ String.mk (s.data.flatMap (fun c => if c = '\x27' then ['\\', '\x27'] else [c])) ++ "\x27"

mutual
/-- Python `str`/`repr` of a payload value (`f"... json={payload})"`). -/
def pyRepr : Json → String
  | .null => "None"
  | .bool true => "True"
  | .bool false => "False"
  | .num n => toString n
  | .str s => pyReprStr s
  | .arr xs => "[" ++ pyReprList xs ++ "]"
  | .obj kvs => "\x7b" ++ pyReprObj kvs ++ "\x7d"

def pyReprList : List Json → String
  | [] => ""
  | [x] => pyRepr x
  | x :: y :: rest => pyRepr x ++ ", " ++ pyReprList (y :: rest)

def pyReprObj : List (String × Json) → String
  | [] => ""
  | [(k, v)] => pyReprStr k ++ ": " ++ pyRepr v
  | (k, v) :: y :: rest => pyReprStr k ++ ": " ++ pyRepr v ++ ", " ++ pyReprObj (y :: rest)
end

/-- Python `str(x)` as used in an f-string hole. -/
def pyStrJson : Json → String
  | .str s => s
  | j => pyRepr j

/-- `GenerationEngine._get_formatted_path`: each declared path parameter
`{name}` becomes `test_id`. -/
def get_formatted_path (e : Endpoint) : String :=
  String.mk (e.parameters.foldl (fun path p =>
    if dictGet p "in" = some (Json.str "path") then
      let nm := match dictGet p "name" with
        | some j => pyStrJson j
        | none => "None"
      replaceSub ("\x7b" ++ nm ++ "\x7d").data "test_id".data path
    else path) e.path.data)

/-- `GenerationEngine._generate_headers` with the timestamp abstracted. -/
def generate_headers (ts : String) (e : Endpoint) : List String :=
  ["# endpoint_id: " ++ e.id, "# last_generated: " ++ ts]
    ++ (match e.request_body with
        | some rb => ["# request_schema_hash: " ++ rb.hash]
        | none => [])
    ++ e.responses.map (fun q => "# response_schema_hash_" ++ q.1 ++ ": " ++ q.2.hash)

/-- Sequence `Option`-valued line generators over a list, concatenating
the produced lines. -/
def optFlat (f : α → Option (List String)) : List α → Option (List String)
  | [] => some []
  | x :: xs => (f x).bind (fun a => (optFlat f xs).map (fun b => a ++ b))

/-- One step of `assertions._generate_type_assertion` with the recursive
call abstracted. -/
def typeAssertStep (rec : SchemaRef → String → Option (List String))
    (comps : List (String × SchemaRef)) (schema : SchemaRef) (val_path : String) :
    Option (List String) :=
  if truthyStr schema.ref_name then
    match dictGet comps (schema.ref_name.getD "") with
    | some resolved => rec resolved val_path
    | none => some []
  else if truthyList schema.all_of then
    optFlat (fun sub => rec sub val_path) (schema.all_of.getD [])
  else if truthyList schema.one_of then
    rec ((schema.one_of.getD []).headD SchemaRef.empty) val_path
  else if truthyList schema.any_of then
    rec ((schema.any_of.getD []).headD SchemaRef.empty) val_path
  else some (
    if schema.type = some "string" then ["assert isinstance(" ++ val_path ++ ", str)"]
    else if schema.type = some "integer" then ["assert isinstance(" ++ val_path ++ ", int)"]
    else if schema.type = some "number" then
      ["assert isinstance(" ++ val_path ++ ", (int, float))"]
    else if schema.type = some "boolean" then ["assert isinstance(" ++ val_path ++ ", bool)"]
    else if schema.type = some "object" then ["assert isinstance(" ++ val_path ++ ", dict)"]
    else if schema.type = some "array" then ["assert isinstance(" ++ val_path ++ ", list)"]
    else [])

/-- `assertions._generate_type_assertion`, recursion bounded by fuel. -/
def generate_type_assertion : Nat → List (String × SchemaRef) → SchemaRef → String →
    Option (List String)
  | 0, _, _, _ => none
  | fuel + 1, comps, schema, val_path =>
    typeAssertStep (generate_type_assertion fuel comps) comps schema val_path

/-- The non-recursive type dispatch tail of
`assertions.generate_response_assertions`. -/
def respTail (tyrec : SchemaRef → String → Option (List String))
    (itemsRec : SchemaRef → String → Option (List String))
    (schema : SchemaRef) (var : String) : Option (List String) :=
  if schema.type = some "object" then
    (if truthyList schema.properties then
      optFlat (fun q =>
        if q.2.write_only then some []
        else (tyrec q.2 (var ++ "[\x22" ++ q.1 ++ "\x22]")).map
          (fun ta => ("assert \x22" ++ q.1 ++ "\x22 in " ++ var) :: ta))
        (schema.properties.getD [])
      else some []).map
      (fun rest => ("assert isinstance(" ++ var ++ ", dict)") :: rest)
  else if schema.type = some "array" then
    (match schema.items with
      | some it =>
        (itemsRec it (var ++ "[0]")).map (fun (ia : List String) =>
          ("if len(" ++ var ++ ") > 0:") :: ia.map (fun a => "    " ++ a))
      | none => some []).map
      (fun rest => ("assert isinstance(" ++ var ++ ", list)") :: rest)
  else if schema.type = some "string" then
    some (["assert isinstance(" ++ var ++ ", str)"]
      ++ (if truthyList schema.enum then
          ["assert " ++ var ++ " in " ++ pyRepr (Json.arr (schema.enum.getD []))] else [])
      ++ (match schema.min_length with
          | some ml => ["assert len(" ++ var ++ ") >= " ++ toString ml]
          | none => [])
      ++ (match schema.max_length with
          | some xl => ["assert len(" ++ var ++ ") <= " ++ toString xl]
          | none => []))
  else if schema.type = some "integer" then
    some (["assert isinstance(" ++ var ++ ", int)"]
      ++ (match schema.minimum with
          | some mn => ["assert " ++ var ++ " >= " ++ toString mn]
          | none => [])
      ++ (match schema.maximum with
          | some mx => ["assert " ++ var ++ " <= " ++ toString mx]
          | none => []))
  else if schema.type = some "number" then
    some (["assert isinstance(" ++ var ++ ", (int, float))"]
      ++ (match schema.minimum with
          | some mn => ["assert " ++ var ++ " >= " ++ toString mn]
          | none => [])
      ++ (match schema.maximum with
          | some mx => ["assert " ++ var ++ " <= " ++ toString mx]
          | none => []))
  else if schema.type = some "boolean" then
    some ["assert isinstance(" ++ var ++ ", bool)"]
  else some []

/-- One step of `assertions.generate_response_assertions` with the
recursive call abstracted. -/
def respStep (rec : SchemaRef → String → Option (List String))
    (tyrec : SchemaRef → String → Option (List String))
    (comps : List (String × SchemaRef)) (schema : SchemaRef) (var : String) :
    Option (List String) :=
  if truthyStr schema.ref_name then
    match dictGet comps (schema.ref_name.getD "") with
    | some resolved => rec resolved var
    | none => some []
  else
    (if truthyList schema.all_of then
      optFlat (fun sub => rec sub var) (schema.all_of.getD [])
      else some (([] : List String))).bind (fun lines0 =>
    if truthyList schema.all_of ∧ ¬ truthyList schema.properties then some lines0
    else if truthyList schema.one_of then
      rec ((schema.one_of.getD []).headD SchemaRef.empty) var
    else if truthyList schema.any_of then
      rec ((schema.any_of.getD []).headD SchemaRef.empty) var
    else (respTail tyrec rec schema var).map (fun tail => lines0 ++ tail))

/-- `assertions.generate_response_assertions`, recursion bounded by fuel. -/
def generate_response_assertions : Nat → List (String × SchemaRef) → SchemaRef → String →
    Option (List String)
  | 0, _, _, _ => none
  | fuel + 1, comps, schema, var =>
    respStep (generate_response_assertions fuel comps) (generate_type_assertion fuel comps)
      comps schema var

/-- `ErrorAssertionGenerator.generate_error_assertions`: schema-driven
assertions when available and non-empty, the generic fallback otherwise
(a `RecursionError` of the schema walk is swallowed by the bare
`except`). -/
def generate_error_assertions (fuel : Nat) (comps : List (String × SchemaRef))
    (error_schema : Option SchemaRef) : List String :=
  let fallback := ["assert isinstance(data, dict)",
    "if \x27code\x27 in data: assert isinstance(data[\x27code\x27], int)",
    "if \x27message\x27 in data: assert isinstance(data[\x27message\x27], str)",
    "if \x27details\x27 in data: assert isinstance(data[\x27details\x27], list)"]
  match error_schema with
  | some s =>
    match generate_response_assertions fuel comps s "data" with
    | some (a :: rest) => a :: rest
    | _ => fallback
  | none => fallback

/-- `GenerationEngine._generate_negative_test_file`; the result pairs the
file write (`tests/negative/` filename and content lines, `none` when
nothing is written) with the returned mutation count. -/
def generate_negative_test_file (fuel : Nat) (pickEnum : List Json → String) (ts : String)
    (endpoint : Endpoint) (comps : List (String × SchemaRef))
    (existing : Option (List (List Char))) :
    Option (Option (String × List (List Char)) × Nat) :=
  match endpoint.request_body with
  | none => some (none, 0)
  | some rb =>
    if ¬ (["POST", "PUT", "PATCH"].contains (pyUpper endpoint.method)) then
      some (none, 0)
    else
      let filename := get_safe_filename endpoint
      (generate_payload fuel rb comps).bind (fun base_payload =>
        let mutations := generate_mutations pickEnum comps rb base_payload
        if mutations.isEmpty then some (none, 0)
        else
          let error_schema :=
            match dictGet endpoint.responses "400" with
            | some s => some s
            | none =>
              match dictGet endpoint.responses "422" with
              | some s => some s
              | none => dictGet endpoint.responses "default"
          let error_assertions := generate_error_assertions fuel comps error_schema
          let formatted_path := get_formatted_path endpoint
          let test_definitions := mutations.map (fun q =>
            TestDef.mk
              ("test_" ++ pyLower endpoint.method ++ "_"
                ++ String.mk (replaceSub ".py".data [] (get_safe_filename endpoint).data)
                ++ "_negative_" ++ q.1)
              ((["response = client." ++ pyLower endpoint.method ++ "(f\x22" ++ formatted_path
                  ++ "\x22, json=" ++ pyRepr q.2 ++ ")",
                 "assert response.status_code in [400, 422]",
                 "data = response.json()"]
                ++ error_assertions).map String.data)
              ["@pytest.mark.negative".data])
          let content := assemble_test_file test_definitions
            ((generate_headers ts endpoint).map String.data) existing
          some (some (filename, content), mutations.length))

/-- C10: negative mutation artifacts exist only for body-carrying POST,
PUT or PATCH endpoints: for every endpoint that declares no request body
or whose upper-cased method is anything else (DELETE, GET, ...), the
negative generator returns count 0 and writes no file, whatever the
components, prior content, fuel, timestamp or random draws. -/
theorem negative_only_for_mutating_methods (fuel : Nat) (pickEnum : List Json → String)
    (ts : String) (endpoint : Endpoint) (comps : List (String × SchemaRef))
    (existing : Option (List (List Char)))
    (h : endpoint.request_body = none ∨
      ¬ (["POST", "PUT", "PATCH"].contains (pyUpper endpoint.method) = true)) :
    generate_negative_test_file fuel pickEnum ts endpoint comps existing = some (none, 0) := by
  rcases h with h | h
  · rw [generate_negative_test_file, h]
  · rw [generate_negative_test_file]
    cases hrb : endpoint.request_body with
    | none => rfl
    | some rb =>
        show (if ¬ (["POST", "PUT", "PATCH"].contains (pyUpper endpoint.method) = true)
          then some (none, 0) else _) = some (none, 0)
        rw [if_pos h]

def c10Endpoint : Endpoint :=
  { method := "delete", path := "/users/\x7bid\x7d",
    parameters := [[("name", Json.str "id"), ("in", Json.str "path")]],
    request_body := some (SchemaRef.mk none (some "object")
      (some [("a", SchemaRef.mk none (some "integer") none none none false none none none
        none none none none none none false false none)])
      none (some ["a"]) false none none none none none none none none none false false none),
    responses := [("204", SchemaRef.empty)] }

theorem negative_only_for_mutating_methods_witness :
    generate_negative_test_file 8 (fun _ => "invalid_enum_0") "2025-06-30T12:34:56"
      c10Endpoint [] none = some (none, 0) :=
  negative_only_for_mutating_methods 8 (fun _ => "invalid_enum_0") "2025-06-30T12:34:56"
    c10Endpoint [] none (Or.inr (by decide))

/-!
The repository scan (`state/repo_manager.py`).  The filesystem is
abstracted to the facts the function consults: existence and
directory-ness of the root, existence of the test directory, and the
walked test files in walk order.  `os.walk` yields each file's basename
(`file`, the string the skip checks inspect) while the stored record
carries `relative_path = os.path.relpath(os.path.join(root, file),
repo_path)`; a walk entry keeps both alongside the file content.  Raised
exceptions become `Except.error` carrying the exception message.
-/

structure WalkEntry where
  file : String
  relative_path : String
  content : String

structure RepoFS where
  rootExists : Bool
  rootIsDir : Bool
  testDirExists : Bool
  files : List WalkEntry

/-- Python `\w` as the scanned headers use it (ASCII letters, digits,
underscore). -/
def isWordChar (c : Char) : Bool := c.isAlpha || c.isDigit || c = '_'

/-- Python `str.strip()`: whitespace removed from both ends. -/
def pyStrip (l : List Char) : List Char :=
  ((l.dropWhile pyIsSpace).reverse.dropWhile pyIsSpace).reverse

/-- Match `\s*(.+)` at the start of `l` (greedy, with the backtracking
the regex engine performs when the whitespace run reaches the end of the
text): returns the group and the remaining text after it. -/
def matchWsText (l : List Char) : Option (List Char × List Char) :=
  let ws := l.takeWhile pyIsSpace
  let rest := l.drop ws.length
  match rest with
  | _ :: _ => some (rest.takeWhile (fun c => ¬ c = '\n'), rest.dropWhile (fun c => ¬ c = '\n'))
  | [] =>
    match ws.reverse.dropWhile (fun c => c = '\n') with
    | c :: _ => some ([c], (ws.reverse.takeWhile (fun c2 => c2 = '\n')).reverse)
    | [] => none

/-- `re.search(r'#\s*KEY\s*(.+)', content).group(1).strip()`: the scan
tries every position left to right. -/
def searchKey (key : List Char) : List Char → Option (List Char)
  | [] => none
  | c :: rest =>
    if c = '#' then
      let afterWs := rest.dropWhile pyIsSpace
      if key.isPrefixOf afterWs then
        match matchWsText (afterWs.drop key.length) with
        | some q => some (pyStrip q.1)
        | none => searchKey key rest
      else searchKey key rest
    else searchKey key rest

/-- `re.finditer(r'#\s*response_schema_hash_(\w+):\s*(.+)', content)`:
every non-overlapping match contributes `(code, hash.strip())`, scanning
resuming after each match. -/
def respScanGo : Nat → List Char → List (String × String)
  | 0, _ => []
  | fuel + 1, l =>
    match l with
    | [] => []
    | c :: rest =>
      if c = '#' then
        let afterWs := rest.dropWhile pyIsSpace
        if ("response_schema_hash_".data).isPrefixOf afterWs then
          let afterKey := afterWs.drop ("response_schema_hash_".data).length
          let w := afterKey.takeWhile isWordChar
          match w, afterKey.drop w.length with
          | _ :: _, ':' :: afterColon =>
            match matchWsText afterColon with
            | some q =>
                (String.mk w, String.mk (pyStrip q.1)) :: respScanGo fuel q.2
            | none => respScanGo fuel rest
          | _, _ => respScanGo fuel rest
        else respScanGo fuel rest
      else respScanGo fuel rest

/-- `_extract_metadata_from_content`: the optional `endpoint_id`, the
optional `request_schema_hash`, and the per-status-code response hash
dictionary (absent when no match, later matches overwriting earlier ones
for the same code). -/
def extract_metadata (content : List Char) :
    Option String × Option String × Option (List (String × String)) :=
  let eid := (searchKey ("endpoint_id:".data) content).map String.mk
  let rh := (searchKey ("request_schema_hash:".data) content).map String.mk
  let responses := buildDict (respScanGo (content.length + 1) content)
  (eid, rh, if responses.isEmpty then none else some responses)

/-- The record the scan keeps for one walked file, `none` when the file
is filtered out (the `.py`-suffix and `__init__.py` checks inspect the
basename) or carries no identity header. -/
def recordOf (q : WalkEntry) : Option TestFileMetadata :=
  if ¬ (".py".data.isSuffixOf q.file.data) ∨ q.file = "__init__.py" then none
  else
    match extract_metadata q.content.data with
    | (some eid, rh, rhs) => some ⟨q.relative_path, eid, rh, rhs⟩
    | (none, _, _) => none

def insertMeta (a : TestFileMetadata) : List TestFileMetadata → List TestFileMetadata
  | [] => [a]
  | b :: bs => if strLe a.relative_path b.relative_path then a :: b :: bs
      else b :: insertMeta a bs

/-- `discovered_files.sort(key=lambda x: x.relative_path)`. -/
def sortMeta : List TestFileMetadata → List TestFileMetadata
  | [] => []
  | a :: as2 => insertMeta a (sortMeta as2)

/-- `repo_manager.read_existing_tests`. -/
def read_existing_tests (fs : RepoFS) : Except String (List TestFileMetadata) :=
  if ¬ fs.rootExists then .error "Repository path does not exist"
  else if ¬ fs.rootIsDir then .error "Path is not a directory"
  else if ¬ fs.testDirExists then .ok []
  else .ok (sortMeta (fs.files.filterMap recordOf))

theorem insertMeta_perm (a : TestFileMetadata) (l : List TestFileMetadata) :
    (insertMeta a l).Perm (a :: l) := by
  induction l with
  | nil => exact List.Perm.refl _
  | cons b bs ih =>
      rw [insertMeta]
      by_cases hc : strLe a.relative_path b.relative_path = true
      · rw [if_pos hc]
      · rw [if_neg hc]
        exact (List.Perm.cons b ih).trans (List.Perm.swap a b bs)

theorem sortMeta_perm (l : List TestFileMetadata) : (sortMeta l).Perm l := by
  induction l with
  | nil => exact List.Perm.refl _
  | cons a as2 ih =>
      rw [sortMeta]
      exact (insertMeta_perm a (sortMeta as2)).trans (List.Perm.cons a ih)

theorem recordOf_path {q : WalkEntry} {r : TestFileMetadata}
    (h : recordOf q = some r) : r.relative_path = q.relative_path := by
  rw [recordOf] at h
  by_cases hf : (¬ (".py".data.isSuffixOf q.file.data) = true ∨ q.file = "__init__.py")
  · rw [if_pos hf] at h
    cases h
  · rw [if_neg hf] at h
    rcases hx : extract_metadata q.content.data with ⟨e, r1, r2⟩
    rw [hx] at h
    cases e with
    | none => cases h
    | some eid =>
        injection h with h2
        rw [← h2]

/-- C9: the repository scan fails fast with `FileNotFoundError` when the
root path does not exist and with `NotADirectoryError` when it is not a
directory, before any file is consulted; a scanned file whose content
lacks an `endpoint_id` header contributes no record (removing it leaves
the result unchanged); a file whose basename is `__init__.py` is skipped
outright, whatever its content; and a kept `.py` file with the identity
header yields exactly one record, carrying the extracted endpoint id,
request fingerprint and per-status-code response fingerprints. -/
theorem read_existing_tests_contract :
    (∀ fs : RepoFS, fs.rootExists = false →
      read_existing_tests fs = .error "Repository path does not exist")
    ∧ (∀ fs : RepoFS, fs.rootExists = true → fs.rootIsDir = false →
      read_existing_tests fs = .error "Path is not a directory")
    ∧ (∀ (re2 rd td : Bool) (pre post : List WalkEntry) (nm rel content : String),
      (extract_metadata content.data).1 = none →
      read_existing_tests ⟨re2, rd, td, pre ++ ⟨nm, rel, content⟩ :: post⟩
        = read_existing_tests ⟨re2, rd, td, pre ++ post⟩)
    ∧ (∀ (re2 rd td : Bool) (pre post : List WalkEntry) (rel content : String),
      read_existing_tests ⟨re2, rd, td, pre ++ ⟨"__init__.py", rel, content⟩ :: post⟩
        = read_existing_tests ⟨re2, rd, td, pre ++ post⟩)
    ∧ (∀ (pre post : List WalkEntry) (nm rel content : String) (eid : String)
        (rh : Option String) (rhs : Option (List (String × String))),
      ".py".data.isSuffixOf nm.data = true → ¬ nm = "__init__.py" →
      extract_metadata content.data = (some eid, rh, rhs) →
      rel ∉ pre.map WalkEntry.relative_path → rel ∉ post.map WalkEntry.relative_path →
      ∃ records, read_existing_tests ⟨true, true, true, pre ++ ⟨nm, rel, content⟩ :: post⟩
          = .ok records
        ∧ records.count (⟨rel, eid, rh, rhs⟩ : TestFileMetadata) = 1
        ∧ records.countP (fun r => r.relative_path == rel) = 1) := by
  have hskip : ∀ (re2 rd td : Bool) (pre post : List WalkEntry) (e : WalkEntry),
      recordOf e = none →
      read_existing_tests ⟨re2, rd, td, pre ++ e :: post⟩
        = read_existing_tests ⟨re2, rd, td, pre ++ post⟩ := by
    intro re2 rd td pre post e hrec
    have hs : (pre ++ e :: post).filterMap recordOf = (pre ++ post).filterMap recordOf := by
      simp [List.filterMap_append, List.filterMap_cons, hrec]
    rw [read_existing_tests, read_existing_tests]
    simp only [hs]
  refine ⟨?_, ?_, ?_, ?_, ?_⟩
  · intro fs h
    rw [read_existing_tests, h]
    rfl
  · intro fs h1 h2
    rw [read_existing_tests, h1, h2]
    rfl
  · intro re2 rd td pre post nm rel content hext
    refine hskip re2 rd td pre post ⟨nm, rel, content⟩ ?_
    rw [recordOf]
    by_cases hf : (¬ (".py".data.isSuffixOf nm.data) = true ∨ nm = "__init__.py")
    · rw [if_pos hf]
    · rw [if_neg hf]
      rcases hx : extract_metadata content.data with ⟨e, r1, r2⟩
      rw [hx] at hext
      simp only at hext
      subst hext
      rfl
  · intro re2 rd td pre post rel content
    exact hskip re2 rd td pre post ⟨"__init__.py", rel, content⟩
      (by rw [recordOf, if_pos (Or.inr rfl)])
  · intro pre post nm rel content eid rh rhs hsuf hne hext hpre hpost
    have hrec : recordOf ⟨nm, rel, content⟩ = some ⟨rel, eid, rh, rhs⟩ := by
      rw [recordOf, if_neg (by simp [hsuf, hne]), hext]
    refine ⟨sortMeta ((pre ++ ⟨nm, rel, content⟩ :: post).filterMap recordOf), rfl, ?_, ?_⟩
    · rw [List.Perm.count_eq (sortMeta_perm _)]
      rw [List.filterMap_append, List.filterMap_cons, hrec]
      rw [List.count_append, List.count_cons]
      have h1 : (pre.filterMap recordOf).count (⟨rel, eid, rh, rhs⟩ : TestFileMetadata)
          = 0 := by
        rw [List.count_eq_zero]
        intro hmem
        obtain ⟨q, hq, hqr⟩ := List.mem_filterMap.mp hmem
        have := recordOf_path hqr
        simp only at this
        exact hpre (this ▸ List.mem_map_of_mem WalkEntry.relative_path hq)
      have h2 : (post.filterMap recordOf).count (⟨rel, eid, rh, rhs⟩ : TestFileMetadata)
          = 0 := by
        rw [List.count_eq_zero]
        intro hmem
        obtain ⟨q, hq, hqr⟩ := List.mem_filterMap.mp hmem
        have := recordOf_path hqr
        simp only at this
        exact hpost (this ▸ List.mem_map_of_mem WalkEntry.relative_path hq)
      rw [h1, h2]
      simp
    · rw [List.Perm.countP_eq _ (sortMeta_perm _)]
      rw [List.filterMap_append, List.filterMap_cons, hrec]
      rw [List.countP_append, List.countP_cons]
      have h1 : (pre.filterMap recordOf).countP (fun r => r.relative_path == rel) = 0 := by
        rw [List.countP_eq_zero]
        intro r hmem
        obtain ⟨q, hq, hqr⟩ := List.mem_filterMap.mp hmem
        have hp := recordOf_path hqr
        simp only [beq_iff_eq]
        intro hcon
        exact hpre ((hp.symm.trans hcon) ▸ List.mem_map_of_mem WalkEntry.relative_path hq)
      have h2 : (post.filterMap recordOf).countP (fun r => r.relative_path == rel) = 0 := by
        rw [List.countP_eq_zero]
        intro r hmem
        obtain ⟨q, hq, hqr⟩ := List.mem_filterMap.mp hmem
        have hp := recordOf_path hqr
        simp only [beq_iff_eq]
        intro hcon
        exact hpost ((hp.symm.trans hcon) ▸ List.mem_map_of_mem WalkEntry.relative_path hq)
      rw [h1, h2]
      simp

def c9Content : String :=
  "# endpoint_id: GET /users\n# request_schema_hash: abc123\n# response_schema_hash_200: aaa\n"

theorem read_existing_tests_contract_witness :
    read_existing_tests ⟨false, false, true, []⟩ = .error "Repository path does not exist"
    ∧ read_existing_tests ⟨true, true, true,
        [] ++ ⟨"__init__.py", "tests/__init__.py", c9Content⟩ :: []⟩
      = read_existing_tests ⟨true, true, true, [] ++ []⟩
    ∧ (∃ records,
      read_existing_tests ⟨true, true, true,
          [] ++ ⟨"test_users.py", "tests/positive/test_users.py", c9Content⟩ :: []⟩
        = .ok records
      ∧ records.count (⟨"tests/positive/test_users.py", "GET /users", some "abc123",
          some [("200", "aaa")]⟩ : TestFileMetadata) = 1
      ∧ records.countP (fun r => r.relative_path == "tests/positive/test_users.py") = 1) :=
  ⟨read_existing_tests_contract.1 ⟨false, false, true, []⟩ rfl,
   read_existing_tests_contract.2.2.2.1 true true true [] [] "tests/__init__.py" c9Content,
   read_existing_tests_contract.2.2.2.2 [] [] "test_users.py"
     "tests/positive/test_users.py" c9Content "GET /users"
     (some "abc123") (some [("200", "aaa")]) (by decide) (by decide) (by decide)
     (by decide) (by decide)⟩
